import Mathlib

/-!
Verification of the `bioinfo_tools` repository: a shallow embedding of its
seven Python scripts (gene/promoter extraction from GTF, proximal/distal BED
splitting, nearest-gene annotation, mouse/human homolog conversion, and a
CRISPR PFS scanner) together with theorems settling the specification claims.

Python machine-level conventions used throughout the embedding:
* Python `dict` objects are modelled as insertion-ordered association lists
  (`List (String × α)`) with `dictInsert` (update-in-place or append) and
  `dictGet` (first matching key; keys stay unique under `dictInsert`).
* Raised exceptions are modelled with `Except String` / `Option`.
* Text case conversion is modelled on the ASCII range, which is the alphabet
  of gene symbols handled by the scripts.
* Files written by a script are modelled as a `List (String × ...)` of
  (file name, content) pairs returned alongside the computed data.
-/

/-- Python dict assignment `d[k] = v`: replace the binding in place if the
key is present, otherwise append a new binding at the end. -/
def dictInsert {α : Type} : List (String × α) → String → α → List (String × α)
  | [], k, v => [(k, v)]
  | p :: rest, k, v => if p.1 = k then (k, v) :: rest else p :: dictInsert rest k v

/-- Python dict lookup `d.get(k)`: value of the first binding of `k`. -/
def dictGet {α : Type} : List (String × α) → String → Option α
  | [], _ => none
  | p :: rest, k => if p.1 = k then some p.2 else dictGet rest k

theorem dictGet_insert_self {α : Type} (m : List (String × α)) (k : String) (v : α) :
    dictGet (dictInsert m k v) k = some v := by
  induction m with
  | nil => simp [dictInsert, dictGet]
  | cons p rest ih =>
    by_cases h : p.1 = k <;> simp [dictInsert, dictGet, h, ih]

theorem dictGet_insert_ne {α : Type} (m : List (String × α)) (k k' : String) (v : α)
    (h : k' ≠ k) : dictGet (dictInsert m k v) k' = dictGet m k' := by
  induction m with
  | nil => simp [dictInsert, dictGet, h, Ne.symm h]
  | cons p rest ih =>
    by_cases hp : p.1 = k
    · simp [dictInsert, dictGet, hp, h, Ne.symm h]
    · by_cases hp' : p.1 = k' <;> simp [dictInsert, dictGet, hp, hp', ih, h]

/-- When the key is absent, Python dict assignment appends the binding. -/
theorem dictInsert_of_get_none {α : Type} (m : List (String × α)) (k : String) (v : α)
    (h : dictGet m k = none) : dictInsert m k v = m ++ [(k, v)] := by
  induction m with
  | nil => simp [dictInsert]
  | cons p rest ih =>
    by_cases hp : p.1 = k
    · simp [dictGet, hp] at h
    · simp [dictGet, hp] at h
      simp [dictInsert, hp, ih h]

theorem dictGet_eq_none_iff {α : Type} (m : List (String × α)) (k : String) :
    dictGet m k = none ↔ k ∉ m.map (·.1) := by
  induction m with
  | nil => simp [dictGet]
  | cons p rest ih =>
    by_cases hp : p.1 = k <;> simp [dictGet, hp, ih, eq_comm (a := k)]

/- ### ASCII case conversion (model of Python `str.upper` / `str.lower` /
`str.capitalize` on the ASCII alphabet of gene symbols) -/

/-- Lowercase-to-uppercase ASCII table. -/
def toUpperTable : List (Char × Char) :=
  "abcdefghijklmnopqrstuvwxyz".data.zip "ABCDEFGHIJKLMNOPQRSTUVWXYZ".data

/-- Uppercase-to-lowercase ASCII table. -/
def toLowerTable : List (Char × Char) :=
  "ABCDEFGHIJKLMNOPQRSTUVWXYZ".data.zip "abcdefghijklmnopqrstuvwxyz".data

/-- ASCII model of Python's per-character uppercase conversion. -/
def pyUpperChar (c : Char) : Char :=
  ((toUpperTable.find? (·.1 = c)).map (·.2)).getD c

/-- ASCII model of Python's per-character lowercase conversion. -/
def pyLowerChar (c : Char) : Char :=
  ((toLowerTable.find? (·.1 = c)).map (·.2)).getD c

theorem pyUpperChar_idem (c : Char) : pyUpperChar (pyUpperChar c) = pyUpperChar c := by
  unfold pyUpperChar
  cases h : toUpperTable.find? (·.1 = c) with
  | none => simp [h]
  | some p =>
    have hmem : p ∈ toUpperTable := List.mem_of_find?_eq_some h
    have hall : ∀ q ∈ toUpperTable, toUpperTable.find? (·.1 = q.2) = none := by decide
    simp [h, hall p hmem]

theorem pyLowerChar_idem (c : Char) : pyLowerChar (pyLowerChar c) = pyLowerChar c := by
  unfold pyLowerChar
  cases h : toLowerTable.find? (·.1 = c) with
  | none => simp [h]
  | some p =>
    have hmem : p ∈ toLowerTable := List.mem_of_find?_eq_some h
    have hall : ∀ q ∈ toLowerTable, toLowerTable.find? (·.1 = q.2) = none := by decide
    simp [h, hall p hmem]

/-- Python `s.upper()` on ASCII strings. -/
def pyUpper (s : String) : String := ⟨s.data.map pyUpperChar⟩

/-- Python `s.capitalize()` on ASCII strings: first character uppercased,
the rest lowercased. -/
def pyCapitalize (s : String) : String :=
  match s.data with
  | [] => ⟨[]⟩
  | c :: rest => ⟨pyUpperChar c :: rest.map pyLowerChar⟩

/- ### homolog_converter.py: `HomologConverter.apply_naming_convention` -/

/-- `HomologConverter.apply_naming_convention`: mouse-to-human uppercases the
symbol, human-to-mouse capitalizes it, any other direction returns it
unchanged.  The Python method reads nothing but its arguments. -/
def apply_naming_convention (gene : String) (direction : String) : String :=
  if direction = "m2h" then pyUpper gene
  else if direction = "h2m" then pyCapitalize gene
  else gene

/- ### PFS_Scanner.py: `reverse_complement` -/

/-- The RNA complement table of `reverse_complement` (`A↔U`, `C↔G`). -/
def complementTable : List (Char × Char) := [('A', 'U'), ('U', 'A'), ('C', 'G'), ('G', 'C')]

/-- One `complement[base]` dictionary access; `none` models the `KeyError`
raised on a base outside the table. -/
def complementChar (c : Char) : Option Char :=
  (complementTable.find? (·.1 = c)).map (·.2)

/-- The `''.join(complement[base] for base in reversed_sequence)` traversal:
left-to-right mapping that fails at the first base missing from the table. -/
def mapComplement : List Char → Option (List Char)
  | [] => some []
  | c :: rest =>
    match complementChar c with
    | some d => (mapComplement rest).map (d :: ·)
    | none => none

/-- `reverse_complement(dna_sequence)`: reverse the sequence, then complement
each base; `none` models the `KeyError` on a base outside `{A, C, G, U}`. -/
def reverse_complement (s : String) : Option String :=
  (mapComplement s.data.reverse).map (fun l => ⟨l⟩)

/-- Total version of the complement used to state what `mapComplement`
returns on in-alphabet input. -/
def complementFn (c : Char) : Char := (complementChar c).getD c

theorem mapComplement_eq_map (l : List Char)
    (h : ∀ c ∈ l, c = 'A' ∨ c = 'C' ∨ c = 'G' ∨ c = 'U') :
    mapComplement l = some (l.map complementFn) := by
  induction l with
  | nil => rfl
  | cons c rest ih =>
    have hc := h c (by simp)
    have hrest := ih (fun x hx => h x (by simp [hx]))
    rcases hc with hc | hc | hc | hc <;>
      subst hc <;>
      simp [mapComplement, hrest, complementChar, complementFn, complementTable]

theorem complementFn_involutive (c : Char)
    (h : c = 'A' ∨ c = 'C' ∨ c = 'G' ∨ c = 'U') :
    complementFn (complementFn c) = c := by
  rcases h with h | h | h | h <;> subst h <;> decide

theorem complementFn_mem_alphabet (c : Char)
    (h : c = 'A' ∨ c = 'C' ∨ c = 'G' ∨ c = 'U') :
    complementFn c = 'A' ∨ complementFn c = 'C' ∨ complementFn c = 'G' ∨
      complementFn c = 'U' := by
  rcases h with h | h | h | h <;> subst h <;> decide

/-- **C10.** `reverse_complement` is an involution on strings over the
alphabet `{A, C, G, U}`: composing it with itself recovers the input. -/
theorem c10_reverse_complement_involution (s : String)
    (h : ∀ c ∈ s.data, c = 'A' ∨ c = 'C' ∨ c = 'G' ∨ c = 'U') :
    (reverse_complement s).bind reverse_complement = some s := by
  cases s with
  | mk data =>
    have hd : ∀ c ∈ data, c = 'A' ∨ c = 'C' ∨ c = 'G' ∨ c = 'U' := h
    have h1 : mapComplement data.reverse = some (data.reverse.map complementFn) :=
      mapComplement_eq_map _ (fun c hc => hd c (by simpa using hc))
    have h2 : mapComplement (data.reverse.map complementFn).reverse =
        some ((data.reverse.map complementFn).reverse.map complementFn) := by
      refine mapComplement_eq_map _ (fun c hc => ?_)
      simp only [List.mem_reverse, List.mem_map] at hc
      obtain ⟨a, ha, rfl⟩ := hc
      exact complementFn_mem_alphabet a (hd a (by simpa using ha))
    have h3 : (data.reverse.map complementFn).reverse.map complementFn = data := by
      rw [List.map_reverse, List.map_map]
      have hcong : ∀ c ∈ data.reverse, (complementFn ∘ complementFn) c = id c :=
        fun c hc => complementFn_involutive c (hd c (by simpa using hc))
      rw [List.map_congr_left hcong, List.map_id, List.reverse_reverse]
    show (Option.map (fun l => String.mk l) (mapComplement data.reverse)).bind
        (fun a => Option.map (fun l => String.mk l) (mapComplement a.data.reverse)) =
        some ⟨data⟩
    rw [h1]
    show Option.map (fun l => String.mk l)
        (mapComplement (data.reverse.map complementFn).reverse) = some ⟨data⟩
    rw [h2, h3]
    rfl

/-- Witness for C10 at the concrete sequence `"ACGU"`. -/
theorem c10_witness : (reverse_complement "ACGU").bind reverse_complement = some "ACGU" :=
  c10_reverse_complement_involution "ACGU" (by decide)

/-- **C4.** `apply_naming_convention` is idempotent in its gene argument for
every direction string; being a plain function of its two arguments in this
embedding, its result depends on nothing else. -/
theorem c4_apply_naming_convention_idempotent (g d : String) :
    apply_naming_convention (apply_naming_convention g d) d =
      apply_naming_convention g d := by
  by_cases h1 : d = "m2h"
  · subst h1
    simp only [apply_naming_convention, if_pos rfl]
    cases g with
    | mk data =>
      show (⟨(data.map pyUpperChar).map pyUpperChar⟩ : String) = ⟨data.map pyUpperChar⟩
      have hl : (data.map pyUpperChar).map pyUpperChar = data.map pyUpperChar := by
        rw [List.map_map]
        exact List.map_congr_left (fun c _ => pyUpperChar_idem c)
      rw [hl]
  · by_cases h2 : d = "h2m"
    · subst h2
      simp only [apply_naming_convention, if_pos rfl, if_neg (by decide : ¬("h2m" = "m2h"))]
      cases g with
      | mk data =>
        cases data with
        | nil => rfl
        | cons c rest =>
          show (⟨pyUpperChar (pyUpperChar c) :: (rest.map pyLowerChar).map pyLowerChar⟩ :
              String) = ⟨pyUpperChar c :: rest.map pyLowerChar⟩
          have hl : (rest.map pyLowerChar).map pyLowerChar = rest.map pyLowerChar := by
            rw [List.map_map]
            exact List.map_congr_left (fun x _ => pyLowerChar_idem x)
          rw [pyUpperChar_idem, hl]
    · simp [apply_naming_convention, h1, h2]

/- ### Python string primitives, modelled by structural recursion on the
character list so that every parser below evaluates inside the kernel -/

/-- The whitespace set of Python `str.strip()`. -/
def pySpace (c : Char) : Bool :=
  c = ' ' ∨ c = '\t' ∨ c = '\n' ∨ c = '\r' ∨ c = '\x0b' ∨ c = '\x0c'

/-- Python `s.strip()` on a character list. -/
def trimList (l : List Char) : List Char :=
  ((l.dropWhile pySpace).reverse.dropWhile pySpace).reverse

/-- Python `s.strip()`. -/
def pyTrim (s : String) : String := ⟨trimList s.data⟩

/-- Python `s.split(c)` for a one-character separator. -/
def splitOnChar (c : Char) : List Char → List (List Char)
  | [] => [[]]
  | x :: rest =>
    if x = c then [] :: splitOnChar c rest
    else
      match splitOnChar c rest with
      | [] => [[x]]
      | h :: t => (x :: h) :: t

/-- Python `s.split('; ')` — the separator used by the attribute parser of
the pybedtools-based extraction scripts. -/
def splitSemiSpace : List Char → List (List Char)
  | [] => [[]]
  | ';' :: ' ' :: rest => [] :: splitSemiSpace rest
  | x :: rest =>
    match splitSemiSpace rest with
    | [] => [[x]]
    | h :: t => (x :: h) :: t

/- ### GTF attribute parsing shared by the pybedtools-based scripts -/

/-- Python `s.strip(c)` for a single strip character: remove every leading and
trailing occurrence of `c`. -/
def pyStripChar (c : Char) (s : String) : String :=
  ⟨((s.data.dropWhile (· = c)).reverse.dropWhile (· = c)).reverse⟩

/-- Python `dict(seq)` over a sequence of already-split pieces: every piece
must be a two-element list, later keys override earlier ones; `none` models
the `ValueError`/`TypeError` raised on a piece of the wrong shape. -/
def dictOfPieces (acc : List (String × String)) :
    List (List String) → Option (List (String × String))
  | [] => some acc
  | piece :: rest =>
    match piece with
    | [k, v] => dictOfPieces (dictInsert acc k v) rest
    | _ => none

/-- The attribute parser of `extract_all_genes.py`, `extract_promoters.py` and
`extract_genes_position.py`:
`dict(item.strip().replace('"', '').split(' ') for item in feature[8].strip(';').split('; '))`
(`.replace('"', '')` with an empty replacement deletes every quote);
`none` models the exception caught by the surrounding `try`. -/
def parseAttrsDict (s : String) : Option (List (String × String)) :=
  let items := splitSemiSpace (pyStripChar ';' s).data
  dictOfPieces []
    (items.map (fun it =>
      (splitOnChar ' ' ((trimList it).filter (· ≠ '"'))).map
        (fun l => (⟨l⟩ : String))))

/-- Python's `a or b` on the two optional attribute lookups (an empty string
is falsy and falls through to `b`). -/
def pyOrStr : Option String → Option String → Option String
  | some s, b => if s = "" then b else some s
  | none, b => b

/-- `attrs.get('gene_name') or attrs.get('gene_id')` followed by the
`if not gene_name: continue` guard: `none` means the feature is skipped. -/
def geneNameOf (attrs : List (String × String)) : Option String :=
  match pyOrStr (dictGet attrs "gene_name") (dictGet attrs "gene_id") with
  | none => none
  | some g => if g = "" then none else some g

/-- A GTF feature as surfaced by the `pybedtools` iterator: `start` is the
0-based start (pybedtools subtracts 1 from GTF column 4), `stop` the end,
`featType` is `feature[2]` and `attrStr` is `feature[8]`. -/
structure GtfFeature where
  chrom : String
  featType : String
  start : Int
  stop : Int
  strand : String
  attrStr : String
deriving DecidableEq

/-- A six-column BED row as assembled by the extraction scripts. -/
structure BedRow where
  chrom : String
  start : Int
  stop : Int
  name : String
  score : String
  strand : String
deriving DecidableEq

/-- The `standard_chroms` set of `extract_all_genes.py` and
`extract_genes_position.py`,
`{f'chr{i}' for i in range(1, 23)} | {'chrX', 'chrY'}`, written out as the
literal list of its 24 members. -/
def standardChroms : List String :=
  ["chr1", "chr2", "chr3", "chr4", "chr5", "chr6", "chr7", "chr8", "chr9",
   "chr10", "chr11", "chr12", "chr13", "chr14", "chr15", "chr16", "chr17",
   "chr18", "chr19", "chr20", "chr21", "chr22", "chrX", "chrY"]

/- ### The insert-if-absent accumulation loop shared by the extraction
scripts (`if gene_name not in gene_regions: gene_regions[gene_name] = ...`) -/

/-- One iteration of the accumulation loop: `entry` distills the per-feature
guards and interval construction; an entry is stored only when its gene name
is not yet a key. -/
def accumStep {α β : Type} (entry : α → Option (String × β))
    (acc : List (String × β)) (x : α) : List (String × β) :=
  match entry x with
  | some (k, v) => if (dictGet acc k).isSome then acc else dictInsert acc k v
  | none => acc

/-- The whole loop, started from the empty dict. -/
def accumFirst {α β : Type} (entry : α → Option (String × β)) (xs : List α) :
    List (String × β) :=
  xs.foldl (accumStep entry) []

/-- The value produced by the first element of `xs` whose entry carries the
gene name `g` (file order). -/
def firstHit {α β : Type} (entry : α → Option (String × β)) (g : String)
    (xs : List α) : Option β :=
  xs.findSome? (fun x => (entry x).bind (fun p => if p.1 = g then some p.2 else none))

theorem accum_preserve {α β : Type} (entry : α → Option (String × β)) (g : String)
    (xs : List α) : ∀ (acc : List (String × β)) (v : β), dictGet acc g = some v →
    dictGet (xs.foldl (accumStep entry) acc) g = some v := by
  induction xs with
  | nil => intro acc v h; simpa using h
  | cons x xs ih =>
    intro acc v h
    simp only [List.foldl_cons]
    refine ih _ v ?_
    unfold accumStep
    cases hx : entry x with
    | none => exact h
    | some p =>
      by_cases hs : (dictGet acc p.1).isSome
      · simp [hs, h]
      · by_cases hk : g = p.1
        · rw [← hk] at hs; simp [h] at hs
        · simp [hs, dictGet_insert_ne _ _ _ _ hk, h]

theorem accum_none {α β : Type} (entry : α → Option (String × β)) (g : String)
    (xs : List α) : ∀ (acc : List (String × β)), dictGet acc g = none →
    dictGet (xs.foldl (accumStep entry) acc) g = firstHit entry g xs := by
  induction xs with
  | nil => intro acc h; simpa [firstHit] using h
  | cons x xs ih =>
    intro acc h
    simp only [List.foldl_cons]
    cases hx : entry x with
    | none =>
      rw [show accumStep entry acc x = acc by simp [accumStep, hx]]
      rw [ih acc h]
      simp [firstHit, List.findSome?_cons, hx]
    | some p =>
      by_cases hk : p.1 = g
      · have hnone : ¬(dictGet acc p.1).isSome := by rw [hk, h]; simp
        have hstep : accumStep entry acc x = dictInsert acc p.1 p.2 := by
          simp [accumStep, hx, hnone]
        rw [hstep]
        have : dictGet (dictInsert acc p.1 p.2) g = some p.2 := by
          rw [← hk]; exact dictGet_insert_self _ _ _
        rw [accum_preserve entry g xs _ p.2 this]
        simp [firstHit, List.findSome?_cons, hx, hk]
      · have hget : dictGet (accumStep entry acc x) g = none := by
          unfold accumStep
          cases hs : (dictGet acc p.1).isSome
          · simp [hx, hs, dictGet_insert_ne _ _ _ _ (fun e => hk e.symm), h]
          · simp [hx, hs, h]
        rw [ih _ hget]
        simp [firstHit, List.findSome?_cons, hx, hk]

/-- Lookup in the accumulated dict is exactly the first qualifying feature in
file order. -/
theorem accumFirst_lookup {α β : Type} (entry : α → Option (String × β))
    (g : String) (xs : List α) :
    dictGet (accumFirst entry xs) g = firstHit entry g xs :=
  accum_none entry g xs [] rfl

theorem accum_nodup {α β : Type} (entry : α → Option (String × β)) (xs : List α) :
    ∀ (acc : List (String × β)), (acc.map (·.1)).Nodup →
    ((xs.foldl (accumStep entry) acc).map (·.1)).Nodup := by
  induction xs with
  | nil => intro acc h; simpa using h
  | cons x xs ih =>
    intro acc h
    simp only [List.foldl_cons]
    refine ih _ ?_
    unfold accumStep
    cases hx : entry x with
    | none => exact h
    | some p =>
      obtain ⟨k, v⟩ := p
      show (List.map (·.1)
        (if (dictGet acc k).isSome then acc else dictInsert acc k v)).Nodup
      by_cases hs : (dictGet acc k).isSome
      · simpa [hs] using h
      · have hnone : dictGet acc k = none := by
          cases hget : dictGet acc k
          · rfl
          · rw [hget] at hs; simp at hs
        have hmem : k ∉ acc.map (·.1) := (dictGet_eq_none_iff acc k).mp hnone
        rw [if_neg hs, dictInsert_of_get_none acc k v hnone]
        simp only [List.map_append, List.map_cons, List.map_nil]
        rw [List.nodup_append]
        refine ⟨h, List.nodup_singleton _, ?_⟩
        simp only [List.disjoint_singleton]
        exact hmem

/-- The keys of the accumulated dict are distinct: at most one stored
interval per gene name. -/
theorem accumFirst_keys_nodup {α β : Type} (entry : α → Option (String × β))
    (xs : List α) : ((accumFirst entry xs).map (·.1)).Nodup :=
  accum_nodup entry xs [] (by simp)

theorem accum_mem {α β : Type} (entry : α → Option (String × β)) (xs : List α) :
    ∀ (acc : List (String × β)) (p : String × β),
    p ∈ xs.foldl (accumStep entry) acc → p ∈ acc ∨ ∃ x ∈ xs, entry x = some p := by
  induction xs with
  | nil => intro acc p h; exact Or.inl (by simpa using h)
  | cons x xs ih =>
    intro acc p h
    rcases ih _ p h with hin | ⟨y, hy, he⟩
    · unfold accumStep at hin
      cases hx : entry x with
      | none => rw [hx] at hin; exact Or.inl hin
      | some q =>
        rw [hx] at hin
        obtain ⟨k, v⟩ := q
        have hin' : p ∈ (if (dictGet acc k).isSome then acc else dictInsert acc k v) :=
          hin
        by_cases hs : (dictGet acc k).isSome
        · rw [if_pos hs] at hin'; exact Or.inl hin'
        · have hnone : dictGet acc k = none := by
            cases hget : dictGet acc k
            · rfl
            · rw [hget] at hs; simp at hs
          rw [if_neg hs, dictInsert_of_get_none acc k v hnone] at hin'
          rcases List.mem_append.mp hin' with hin'' | hin''
          · exact Or.inl hin''
          · refine Or.inr ⟨x, by simp, ?_⟩
            simp only [List.mem_singleton] at hin''
            rw [hx, hin'']
    · exact Or.inr ⟨y, by simp [hy], he⟩

/-- Every stored entry comes from some input feature. -/
theorem accumFirst_mem {α β : Type} (entry : α → Option (String × β))
    (xs : List α) (p : String × β) (h : p ∈ accumFirst entry xs) :
    ∃ x ∈ xs, entry x = some p := by
  rcases accum_mem entry xs [] p h with hin | hx
  · simp at hin
  · exact hx

/- ### The three pybedtools extraction scripts -/

/-- The observable result of one script invocation: the computed BED rows,
the files it writes (name, content), and the warning lines it prints while
looping over features. -/
structure ScriptRun where
  rows : List BedRow
  writes : List (String × List BedRow)
  warnings : List String
deriving DecidableEq

/-- The `print(f"Error parsing attributes: {e}")` warning emitted (by
`extract_all_genes.py` and `extract_genes_position.py`) when a feature
reaches the attribute parse and the parse raises; the interpolated exception
text is abstracted away. -/
def parseWarn (f : GtfFeature) : List String :=
  if f.featType = "transcript" ∧ f.chrom ∈ standardChroms ∧
      (parseAttrsDict f.attrStr).isNone then
    ["Error parsing attributes"]
  else []

/-- Per-feature logic of the `extract_all_genes.py` loop: skip non-transcript
features, skip non-standard chromosomes, skip features whose attribute parse
raises or which lack a gene name; otherwise produce the gene interval. -/
def allGenesEntry (f : GtfFeature) : Option (String × BedRow) :=
  if f.featType ≠ "transcript" then none
  else if f.chrom ∉ standardChroms then none
  else
    match parseAttrsDict f.attrStr with
    | none => none
    | some attrs =>
      match geneNameOf attrs with
      | none => none
      | some g => some (g, ⟨f.chrom, f.start, f.stop, g, "0", f.strand⟩)

/-- `extract_all_gene_positions(gtf_file, output_bed)`: accumulates one
interval per gene (first transcript wins) and builds
`gene_bed = pybedtools.BedTool(...)` — but the source contains no
`.saveas(output_bed)` (or any other write), so the list of files written is
empty and the `output_bed` argument is unused. -/
def extract_all_gene_positions (gtf : List GtfFeature) ( output_bed : String) :
    ScriptRun :=
  let gene_regions := accumFirst allGenesEntry gtf
  { rows := gene_regions.map (·.2)
    writes := []
    warnings := (gtf.map parseWarn).flatten }

namespace ExtractPromoters

/-- Per-feature logic of the `extract_promoters.py` loop: skip non-transcript
features, silently skip features whose attribute parse raises, skip features
without a gene name; otherwise compute the promoter window around the TSS
with the start clamped at 0. -/
def promoterEntry (upstream downstream : Int) (f : GtfFeature) :
    Option (String × BedRow) :=
  if f.featType ≠ "transcript" then none
  else
    match parseAttrsDict f.attrStr with
    | none => none
    | some attrs =>
      match geneNameOf attrs with
      | none => none
      | some g =>
        let tss := if f.strand = "+" then f.start else f.stop
        let pstart :=
          if f.strand = "+" then max 0 (tss - upstream) else max 0 (tss - downstream)
        let pstop :=
          if f.strand = "+" then tss + downstream else tss + upstream
        some (g, ⟨f.chrom, pstart, pstop, g, "0", f.strand⟩)

/-- `extract_promoters_from_gtf(gtf_file, upstream, downstream, output_bed)`
from `extract_promoters.py`: accumulates one promoter per gene (first
transcript wins) and saves the rows to `output_bed`; its `except` branch is a
bare `continue`, so no warning is ever printed. -/
def extract_promoters_from_gtf (gtf : List GtfFeature) (upstream downstream : Int)
    ( output_bed : String) : ScriptRun :=
  let promoter_regions := accumFirst (promoterEntry upstream downstream) gtf
  let rows := promoter_regions.map (·.2)
  { rows
    writes := [(output_bed, rows)]
    warnings := [] }

end ExtractPromoters

namespace GenesPosition

/-- Per-feature logic of the `extract_genes_position.py` loop: like
`extract_all_genes.py` but additionally requires the gene name to belong to
the user-supplied gene list. -/
def genesPositionEntry (gene_set : List String) (f : GtfFeature) :
    Option (String × BedRow) :=
  if f.featType ≠ "transcript" then none
  else if f.chrom ∉ standardChroms then none
  else
    match parseAttrsDict f.attrStr with
    | none => none
    | some attrs =>
      match geneNameOf attrs with
      | none => none
      | some g =>
        if g ∈ gene_set then some (g, ⟨f.chrom, f.start, f.stop, g, "0", f.strand⟩)
        else none

/-- `extract_gene_positions_from_gtf(gtf_file, gene_list_file, output_bed)`:
reads the gene list (stripped, non-empty lines), accumulates one interval per
listed gene (first transcript wins) and saves the rows to `output_bed`. -/
def extract_gene_positions_from_gtf (gtf : List GtfFeature)
    (gene_list_lines : List String) ( output_bed : String) : ScriptRun :=
  let gene_list := (gene_list_lines.map pyTrim).filter (· ≠ "")
  let gene_regions := accumFirst (genesPositionEntry gene_list) gtf
  let rows := gene_regions.map (·.2)
  { rows
    writes := [(output_bed, rows)]
    warnings := (gtf.map parseWarn).flatten }

end GenesPosition

theorem allGenesEntry_name (f : GtfFeature) (p : String × BedRow)
    (h : allGenesEntry f = some p) : p.2.name = p.1 := by
  unfold allGenesEntry at h
  split at h
  · exact absurd h (by simp)
  · split at h
    · exact absurd h (by simp)
    · split at h
      · exact absurd h (by simp)
      · split at h
        · exact absurd h (by simp)
        · cases h; rfl

theorem promoterEntry_name (u d : Int) (f : GtfFeature) (p : String × BedRow)
    (h : ExtractPromoters.promoterEntry u d f = some p) : p.2.name = p.1 := by
  unfold ExtractPromoters.promoterEntry at h
  split at h
  · exact absurd h (by simp)
  · split at h
    · exact absurd h (by simp)
    · split at h
      · exact absurd h (by simp)
      · cases h; rfl

theorem genesPositionEntry_name (gs : List String) (f : GtfFeature)
    (p : String × BedRow) (h : GenesPosition.genesPositionEntry gs f = some p) :
    p.2.name = p.1 := by
  unfold GenesPosition.genesPositionEntry at h
  split at h
  · exact absurd h (by simp)
  · split at h
    · exact absurd h (by simp)
    · split at h
      · exact absurd h (by simp)
      · split at h
        · exact absurd h (by simp)
        · split at h
          · cases h; rfl
          · exact absurd h (by simp)

/-- Row names of an accumulated region map are distinct whenever each entry
names its row after its key. -/
theorem accumFirst_rowNames_nodup {α : Type} (entry : α → Option (String × BedRow))
    (hname : ∀ x p, entry x = some p → p.2.name = p.1) (xs : List α) :
    (((accumFirst entry xs).map (·.2)).map (·.name)).Nodup := by
  rw [List.map_map]
  have heq : (accumFirst entry xs).map (fun p => p.2.name) =
      (accumFirst entry xs).map (·.1) :=
    List.map_congr_left (fun p hp => by
      obtain ⟨x, _, he⟩ := accumFirst_mem entry xs p hp
      exact hname x p he)
  rw [show ((fun x => x.name) ∘ fun p : String × BedRow => p.2) =
      (fun p : String × BedRow => p.2.name) from rfl, heq]
  exact accumFirst_keys_nodup entry xs

/-- A concrete well-formed GTF transcript feature for the gene `Foo`. -/
def sampleFooFeature : GtfFeature :=
  { chrom := "chr1", featType := "transcript", start := 100, stop := 200,
    strand := "+", attrStr := "gene_id \"G1\"; gene_name \"Foo\"" }

/-- **C1 (failing-input evidence).** On a GTF input from which
`extract_all_gene_positions` extracts a (non-empty) gene interval set, the
script writes no file at all: in particular nothing is written to its
`output_bed` argument `"all_genes.bed"`.  The source builds the
`pybedtools.BedTool` but never calls `.saveas`. -/
theorem c1_extract_all_genes_writes_nothing :
    (extract_all_gene_positions [sampleFooFeature] "all_genes.bed").rows ≠ [] ∧
      (extract_all_gene_positions [sampleFooFeature] "all_genes.bed").writes = [] :=
  ⟨by decide, rfl⟩

/-- **C9.** Each of the three extraction scripts emits at most one interval
per gene name (the emitted rows carry pairwise distinct names), and the
region stored for a gene name `g` is exactly the one computed from the first
feature in file order whose per-feature entry carries `g` — later transcripts
of the same gene never overwrite it. -/
theorem c9_one_interval_per_gene_first_wins (gtf : List GtfFeature)
    (up down : Int) (glines : List String) (ob1 ob2 ob3 : String) :
    (((ExtractPromoters.extract_promoters_from_gtf gtf up down ob1).rows.map
        (·.name)).Nodup ∧
      ∀ g, dictGet (accumFirst (ExtractPromoters.promoterEntry up down) gtf) g =
        firstHit (ExtractPromoters.promoterEntry up down) g gtf) ∧
    (((extract_all_gene_positions gtf ob2).rows.map (·.name)).Nodup ∧
      ∀ g, dictGet (accumFirst allGenesEntry gtf) g = firstHit allGenesEntry g gtf) ∧
    (((GenesPosition.extract_gene_positions_from_gtf gtf glines ob3).rows.map
        (·.name)).Nodup ∧
      ∀ g, dictGet (accumFirst (GenesPosition.genesPositionEntry
          ((glines.map pyTrim).filter (· ≠ ""))) gtf) g =
        firstHit (GenesPosition.genesPositionEntry
          ((glines.map pyTrim).filter (· ≠ ""))) g gtf) := by
  refine ⟨⟨?_, fun g => accumFirst_lookup _ g gtf⟩,
    ⟨?_, fun g => accumFirst_lookup _ g gtf⟩,
    ⟨?_, fun g => accumFirst_lookup _ g gtf⟩⟩
  · exact accumFirst_rowNames_nodup _ (promoterEntry_name up down) gtf
  · exact accumFirst_rowNames_nodup _ allGenesEntry_name gtf
  · exact accumFirst_rowNames_nodup _ (genesPositionEntry_name _) gtf

/- ### bed_split_proximal_distal.py -/

/-- A decimal-digit value; `none` for a non-digit. -/
def digitVal (c : Char) : Option Nat :=
  if '0' ≤ c ∧ c ≤ '9' then some (c.toNat - '0'.toNat) else none

def natOfDigitsAux (acc : Nat) : List Char → Option Nat
  | [] => some acc
  | c :: rest =>
    match digitVal c with
    | some d => natOfDigitsAux (acc * 10 + d) rest
    | none => none

/-- Python `int(s)` on decimal strings (surrounding whitespace stripped,
optional sign); `none` models the `ValueError` on anything else. -/
def pyInt (s : String) : Option Int :=
  match trimList s.data with
  | [] => none
  | '-' :: rest =>
    match rest with
    | [] => none
    | _ => (natOfDigitsAux 0 rest).map (fun n => -(n : Int))
  | '+' :: rest =>
    match rest with
    | [] => none
    | _ => (natOfDigitsAux 0 rest).map (fun n => (n : Int))
  | l => (natOfDigitsAux 0 l).map (fun n => (n : Int))

/-- Python `value.strip('"')`. -/
def stripQuotesList (l : List Char) : List Char :=
  ((l.dropWhile (· = '"')).reverse.dropWhile (· = '"')).reverse

/-- Python `c.join(pieces)` for a one-character separator. -/
def joinWithChar (c : Char) : List (List Char) → List Char
  | [] => []
  | [x] => x
  | x :: rest => x ++ c :: joinWithChar c rest

/-- Python `s.split(" ", 1)`: split at the first space only (everything after
the first space is rejoined). -/
def pySplit1Space (l : List Char) : List (List Char) :=
  match splitOnChar ' ' l with
  | [] => []
  | [x] => [x]
  | x :: rest => [x, joinWithChar ' ' rest]

namespace BedSplit

/-- One iteration of the `parse_attributes` loop of
`bed_split_proximal_distal.py`: skip blank items, split the stripped item at
its first space, and store `key ↦ value.strip('"')`; items without a space
are silently dropped. -/
def parseAttrStep (attrs : List (String × String)) (attr : List Char) :
    List (String × String) :=
  let t := trimList attr
  if t = [] then attrs
  else
    match pySplit1Space t with
    | [k, v] => dictInsert attrs ⟨k⟩ ⟨stripQuotesList v⟩
    | _ => attrs

/-- `parse_attributes` of `bed_split_proximal_distal.py`: split the stripped
attribute column on `;` and fold the items into a dict.  Total — it can
raise nothing. -/
def parse_attributes (attr_string : String) : List (String × String) :=
  (splitOnChar ';' (trimList attr_string.data)).foldl parseAttrStep []

/-- The caller's `attrs.get("gene_name", ".")`: the sentinel `"."` on any
attribute string without a `gene_name` key. -/
def bedSplitGeneName (attr_string : String) : String :=
  (dictGet (parse_attributes attr_string) "gene_name").getD "."

/-- A `gene_coords` record `(chrom, start, end, strand)`. -/
structure GeneCoord where
  chrom : String
  start : Int
  stop : Int
  strand : String
deriving DecidableEq

/-- One iteration of the `extract_promoters_from_gtf` line loop of
`bed_split_proximal_distal.py`: skip comments and non-transcript/short
lines, convert the 1-based GTF start to 0-based, record the gene position
(last transcript wins, plain dict assignment) and append the clamped
promoter window row; `ValueError` propagates (`.error`). -/
def lineStep (w : Int) (st : List BedRow × List (String × GeneCoord))
    (line : String) : Except String (List BedRow × List (String × GeneCoord)) :=
  if (match line.data with | '#' :: _ => true | _ => false) then .ok st
  else
    let cols := (splitOnChar '\t' (trimList line.data)).map (fun l => (⟨l⟩ : String))
    if cols.length < 9 ∨ cols.getD 2 "" ≠ "transcript" then .ok st
    else
      match pyInt (cols.getD 3 "") with
      | none => .error "ValueError"
      | some s1 =>
        match pyInt (cols.getD 4 "") with
        | none => .error "ValueError"
        | some stop =>
          let chrom := cols.getD 0 ""
          let start := s1 - 1
          let strand := cols.getD 6 ""
          let attrs := parse_attributes (cols.getD 8 "")
          let gene_name := (dictGet attrs "gene_name").getD "."
          let coords :=
            if gene_name ≠ "." then
              dictInsert st.2 gene_name ⟨chrom, start, stop, strand⟩
            else st.2
          let tss0 := if strand = "+" then start else stop
          let prom_start := max 0 (tss0 - w)
          let prom_end := tss0 + w
          .ok (st.1 ++ [⟨chrom, prom_start, prom_end, gene_name, ".", strand⟩], coords)

def extractGo (w : Int) : List String → (List BedRow × List (String × GeneCoord)) →
    Except String (List BedRow × List (String × GeneCoord))
  | [], st => .ok st
  | line :: rest, st =>
    match lineStep w st line with
    | .error e => .error e
    | .ok st' => extractGo w rest st'

/-- `extract_promoters_from_gtf(gtf_file, promoter_window, output_file)`:
returns the promoter rows written to `output_file` and the accumulated
`gene_coords` dict. -/
def extract_promoters_from_gtf (gtf_lines : List String) (promoter_window : Int) :
    Except String (List BedRow × List (String × GeneCoord)) :=
  extractGo promoter_window gtf_lines ([], [])

/-- Model of the external `bedtools intersect` overlap test: same chromosome
and at least one base of overlap between half-open intervals. -/
def bedOverlaps (a b : BedRow) : Bool :=
  a.chrom == b.chrom && decide (a.start < b.stop) && decide (b.start < a.stop)

/-- Model of `bedtools intersect -a A -b B -wa -u`: each row of A reported
once iff it overlaps at least one row of B. -/
def bedtoolsIntersectU (aRows bRows : List BedRow) : List BedRow :=
  aRows.filter (fun a => bRows.any (bedOverlaps a))

/-- Model of `bedtools intersect -a A -b B -v`: each row of A reported iff it
overlaps no row of B. -/
def bedtoolsIntersectV (aRows bRows : List BedRow) : List BedRow :=
  aRows.filter (fun a => !(bRows.any (bedOverlaps a)))

/-- Model of `bedtools intersect -a A -b B -wa` (without `-u`): each row of A
reported once per overlapping row of B. -/
def bedtoolsIntersectWaAll (aRows bRows : List BedRow) : List BedRow :=
  (aRows.map (fun a => (bRows.filter (bedOverlaps a)).map (fun _ => a))).flatten

/-- The GTF-mode dedup loop of `split_regions`: first occurrence of each gene
name with known coordinates is written to the intersected-genes BED and gene
list. -/
def seenGo (gene_coords : List (String × GeneCoord)) (seen : List String) :
    List BedRow → List BedRow × List String
  | [] => ([], [])
  | r :: rest =>
    if r.name = "." then seenGo gene_coords seen rest
    else if r.name ∈ seen then seenGo gene_coords seen rest
    else
      match dictGet gene_coords r.name with
      | none => seenGo gene_coords seen rest
      | some gc =>
        let (bs, ts) := seenGo gene_coords (r.name :: seen) rest
        (⟨gc.chrom, gc.start, gc.stop, r.name, ".", gc.strand⟩ :: bs, r.name :: ts)

/-- The files produced by `split_regions`. -/
structure SplitOutput where
  proximal : List BedRow
  distal : List BedRow
  writes : List (String × List BedRow)
  txtWrites : List (String × List String)
deriving DecidableEq

/-- `split_regions(input_bed, promoter_bed, output_prefix, is_gtf,
gene_coords)`: the proximal file holds the `-u` intersection of the input
with the promoters, the distal file the `-v` intersection; in GTF mode with
non-empty `gene_coords` the deduplicated intersected-genes outputs are added.
-/
def split_regions (input_rows promoter_rows : List BedRow) (pfx : String)
    (is_gtf : Bool) (gene_coords : List (String × GeneCoord)) : SplitOutput :=
  let proximal := bedtoolsIntersectU input_rows promoter_rows
  let distal := bedtoolsIntersectV input_rows promoter_rows
  if is_gtf ∧ gene_coords ≠ [] then
    let inter := bedtoolsIntersectWaAll promoter_rows input_rows
    let (gbed, gtxt) := seenGo gene_coords [] inter
    { proximal := proximal, distal := distal
      writes := [(pfx ++ "_proximal.bed", proximal), (pfx ++ "_distal.bed", distal),
        (pfx ++ "_intersected_genes.bed", gbed)]
      txtWrites := [(pfx ++ "_intersected_genes.txt", gtxt)] }
  else
    { proximal := proximal, distal := distal
      writes := [(pfx ++ "_proximal.bed", proximal), (pfx ++ "_distal.bed", distal)]
      txtWrites := [] }

end BedSplit

theorem length_filter_partition {α : Type} (p : α → Bool) (l : List α) :
    (l.filter p).length + (l.filter (fun a => !(p a))).length = l.length := by
  induction l with
  | nil => rfl
  | cons x xs ih =>
    by_cases h : p x <;> simp [List.filter_cons, h, ← ih] <;> omega

/-- **C5.** `split_regions` writes the `-u` intersection to the proximal file
and the `-v` intersection to the distal file, and these two partition the
input rows: their row counts always sum to the input row count. -/
theorem c5_proximal_distal_partition (input_rows promoter_rows : List BedRow)
    (pfx : String) (is_gtf : Bool) (gene_coords : List (String × BedSplit.GeneCoord)) :
    (BedSplit.split_regions input_rows promoter_rows pfx is_gtf gene_coords).proximal =
      BedSplit.bedtoolsIntersectU input_rows promoter_rows ∧
    (BedSplit.split_regions input_rows promoter_rows pfx is_gtf gene_coords).distal =
      BedSplit.bedtoolsIntersectV input_rows promoter_rows ∧
    (BedSplit.split_regions input_rows promoter_rows pfx is_gtf gene_coords).proximal.length +
      (BedSplit.split_regions input_rows promoter_rows pfx is_gtf gene_coords).distal.length =
      input_rows.length := by
  refine ⟨?_, ?_, ?_⟩
  · unfold BedSplit.split_regions
    split <;> rfl
  · unfold BedSplit.split_regions
    split <;> rfl
  · have hp : (BedSplit.split_regions input_rows promoter_rows pfx is_gtf
        gene_coords).proximal = BedSplit.bedtoolsIntersectU input_rows promoter_rows := by
      unfold BedSplit.split_regions; split <;> rfl
    have hd : (BedSplit.split_regions input_rows promoter_rows pfx is_gtf
        gene_coords).distal = BedSplit.bedtoolsIntersectV input_rows promoter_rows := by
      unfold BedSplit.split_regions; split <;> rfl
    rw [hp, hd]
    exact length_filter_partition _ input_rows

theorem promoterEntry_start_nonneg (u d : Int) (f : GtfFeature) (p : String × BedRow)
    (h : ExtractPromoters.promoterEntry u d f = some p) : 0 ≤ p.2.start := by
  unfold ExtractPromoters.promoterEntry at h
  split at h
  · exact absurd h (by simp)
  · split at h
    · exact absurd h (by simp)
    · split at h
      · exact absurd h (by simp)
      · cases h
        dsimp only
        split <;> exact le_max_left _ _

theorem lineStep_start_nonneg (w : Int) (st st' : List BedRow × List (String × BedSplit.GeneCoord))
    (line : String) (h : BedSplit.lineStep w st line = .ok st')
    (hst : ∀ r ∈ st.1, 0 ≤ r.start) : ∀ r ∈ st'.1, 0 ≤ r.start := by
  unfold BedSplit.lineStep at h
  split at h
  · cases h; exact hst
  · dsimp only at h
    split at h
    · cases h; exact hst
    · split at h
      · exact absurd h (by simp)
      · split at h
        · exact absurd h (by simp)
        · cases h
          intro r hr
          dsimp only at hr
          rcases List.mem_append.mp hr with hr | hr
          · exact hst r hr
          · simp only [List.mem_singleton] at hr
            subst hr
            exact le_max_left _ _

theorem extractGo_start_nonneg (w : Int) (lines : List String) :
    ∀ (st res : List BedRow × List (String × BedSplit.GeneCoord)),
    (∀ r ∈ st.1, 0 ≤ r.start) → BedSplit.extractGo w lines st = .ok res →
    ∀ r ∈ res.1, 0 ≤ r.start := by
  induction lines with
  | nil =>
    intro st res hst h
    cases h
    exact hst
  | cons line rest ih =>
    intro st res hst h
    unfold BedSplit.extractGo at h
    cases hstep : BedSplit.lineStep w st line with
    | error e => rw [hstep] at h; exact absurd h (by simp)
    | ok st' =>
      rw [hstep] at h
      exact ih st' res (lineStep_start_nonneg w st st' line hstep hst) h

/-- **C8.** Every promoter row emitted by either promoter extractor has a
non-negative start: the start is clamped with `max(0, tss - window)`, so no
BED row with a negative start is ever written. -/
theorem c8_promoter_start_nonneg :
    (∀ (gtf : List GtfFeature) (up down : Int) (ob : String) (r : BedRow),
        r ∈ (ExtractPromoters.extract_promoters_from_gtf gtf up down ob).rows →
        0 ≤ r.start) ∧
    (∀ (gtf_lines : List String) (w : Int)
        (res : List BedRow × List (String × BedSplit.GeneCoord)),
        BedSplit.extract_promoters_from_gtf gtf_lines w = .ok res →
        ∀ r ∈ res.1, 0 ≤ r.start) := by
  constructor
  · intro gtf up down ob r hr
    simp only [ExtractPromoters.extract_promoters_from_gtf, List.mem_map] at hr
    obtain ⟨p, hp, rfl⟩ := hr
    obtain ⟨x, _, he⟩ := accumFirst_mem _ gtf p hp
    exact promoterEntry_start_nonneg up down x p he
  · intro gtf_lines w res h
    exact extractGo_start_nonneg w gtf_lines ([], []) res (by simp) h

/-- Witness for C8: on the sample one-transcript GTF with a ±2000 window the
emitted promoter row is `chr1 0 2100 Foo`, and its start is non-negative. -/
theorem c8_witness :
    0 ≤ (⟨"chr1", 0, 2100, "Foo", "0", "+"⟩ : BedRow).start :=
  c8_promoter_start_nonneg.1 [sampleFooFeature] 2000 2000 "promoters.bed" _ (by decide)

/- ### extract_nearest_genes_of_peaks.py -/

namespace NearestGenes

/-- The inner attribute scan of `find_nearest_genes`: first item of
`gene_info.split(';')` whose stripped form starts with `gene_name` yields
`item.split('"')[1]`; `.error "IndexError"` models the uncaught exception
when that item contains no double quote; `"NA"` when no item matches. -/
def geneNameGo : List (List Char) → Except String String
  | [] => .ok "NA"
  | it :: rest =>
    let item := trimList it
    if "gene_name".data.isPrefixOf item then
      match (splitOnChar '"' item).get? 1 with
      | some v => .ok ⟨v⟩
      | none => .error "IndexError"
    else geneNameGo rest

/-- `gene_name` extraction from one feature's `gene_info` column (the
`if gene_info:` guard leaves the default `"NA"` on an empty column). -/
def geneNameOfInfo (gene_info : String) : Except String String :=
  if gene_info = "" then .ok "NA"
  else geneNameGo (splitOnChar ';' gene_info.data)

/-- One row of the `bedtools closest` output as consumed by the
`for feature in nearest` loop: the peak coordinates, the GTF attribute
column (`feature[bed_columns + 8]`, `""` when the feature is too short) and
the trailing distance field. -/
structure PeakRow where
  chrom : String
  start : String
  stop : String
  geneInfo : String
  distance : String
deriving DecidableEq

/-- The result-assembly loop of `find_nearest_genes` (`results.append([chrom,
start, end, gene_name, distance])`); an `IndexError` raised while extracting
any row's gene name aborts the whole loop before anything is written. -/
def find_nearest_rows : List PeakRow → Except String (List (List String))
  | [] => .ok []
  | p :: rest =>
    match geneNameOfInfo p.geneInfo with
    | .error e => .error e
    | .ok g =>
      (find_nearest_rows rest).map
        (fun rs => [p.chrom, p.start, p.stop, g, p.distance] :: rs)

theorem geneNameGo_error_eq (l : List (List Char)) (e : String)
    (h : geneNameGo l = .error e) : e = "IndexError" := by
  induction l with
  | nil => exact absurd h (by simp [geneNameGo])
  | cons it rest ih =>
    unfold geneNameGo at h
    dsimp only at h
    split at h
    · split at h
      · exact absurd h (by simp)
      · cases h; rfl
    · exact ih h

theorem geneNameOfInfo_error_eq (s : String) (e : String)
    (h : geneNameOfInfo s = .error e) : e = "IndexError" := by
  unfold geneNameOfInfo at h
  split at h
  · exact absurd h (by simp)
  · exact geneNameGo_error_eq _ e h

/-- An `IndexError` on any row's gene-name extraction aborts the whole
nearest-genes loop. -/
theorem find_nearest_rows_error (rows : List PeakRow)
    (h : ∃ r ∈ rows, ∃ e, geneNameOfInfo r.geneInfo = .error e) :
    find_nearest_rows rows = .error "IndexError" := by
  induction rows with
  | nil => simp at h
  | cons p rest ih =>
    unfold find_nearest_rows
    cases hp : geneNameOfInfo p.geneInfo with
    | error e => rw [geneNameOfInfo_error_eq _ e hp]
    | ok g =>
      obtain ⟨r, hr, e, he⟩ := h
      rcases List.mem_cons.mp hr with rfl | hr
      · rw [hp] at he; exact absurd he (by simp)
      · rw [ih ⟨r, hr, e, he⟩]
        rfl

end NearestGenes

/- ### C3: handling of malformed attribute lines -/

theorem allGenesEntry_none_of_parse_none (f : GtfFeature)
    (h : parseAttrsDict f.attrStr = none) : allGenesEntry f = none := by
  unfold allGenesEntry
  split
  · rfl
  · split
    · rfl
    · simp [h]

theorem promoterEntry_none_of_parse_none (u d : Int) (f : GtfFeature)
    (h : parseAttrsDict f.attrStr = none) :
    ExtractPromoters.promoterEntry u d f = none := by
  unfold ExtractPromoters.promoterEntry
  split
  · rfl
  · simp [h]

theorem genesPositionEntry_none_of_parse_none (gs : List String) (f : GtfFeature)
    (h : parseAttrsDict f.attrStr = none) :
    GenesPosition.genesPositionEntry gs f = none := by
  unfold GenesPosition.genesPositionEntry
  split
  · rfl
  · split
    · rfl
    · simp [h]

/-- A feature whose entry is `none` leaves the accumulated region map
untouched: processing simply continues with the remaining features. -/
theorem accumFirst_skip {α β : Type} (entry : α → Option (String × β))
    (pre post : List α) (mal : α) (h : entry mal = none) :
    accumFirst entry (pre ++ mal :: post) = accumFirst entry (pre ++ post) := by
  unfold accumFirst
  rw [List.foldl_append, List.foldl_append, List.foldl_cons]
  congr 1
  simp [accumStep, h]

/-- A GTF transcript feature whose attribute column defeats the
dict-comprehension parser (a single token, so no key/value split exists). -/
def malformedFeature : GtfFeature :=
  { chrom := "chr1", featType := "transcript", start := 100, stop := 200,
    strand := "+", attrStr := "garbage" }

/-- **C3 (counterexample).** `extract_promoters.py` does not log a warning on
a malformed attribute line: on a GTF consisting of one transcript with the
unparseable attribute column `"garbage"`, the line is skipped (no promoter
row is produced) and the printed warning list is empty, contrary to the
claimed "skipped with a logged warning" behaviour of every GTF-processing
script. -/
theorem c3_counterexample :
    (ExtractPromoters.extract_promoters_from_gtf [malformedFeature]
        2000 2000 "promoters.bed").rows = [] ∧
      (ExtractPromoters.extract_promoters_from_gtf [malformedFeature]
        2000 2000 "promoters.bed").warnings = [] :=
  ⟨by decide, rfl⟩

/-- **C3 (amended).** On a line with a malformed attribute column:
`extract_all_genes.py` and `extract_genes_position.py` each skip the line
**with** the logged warning `Error parsing attributes` and process the
remaining lines; `extract_promoters.py` skips it and continues but logs
nothing; and `extract_nearest_genes_of_peaks.py` does not skip at all — an
attribute item starting with `gene_name` but containing no double quote
raises an uncaught `IndexError` that aborts the whole loop. -/
theorem c3_malformed_attribute_handling :
    (∀ (pre post : List GtfFeature) (mal : GtfFeature) (ob : String),
        mal.featType = "transcript" → mal.chrom ∈ standardChroms →
        parseAttrsDict mal.attrStr = none →
        (extract_all_gene_positions (pre ++ mal :: post) ob).rows =
          (extract_all_gene_positions (pre ++ post) ob).rows ∧
        (extract_all_gene_positions (pre ++ mal :: post) ob).warnings =
          (pre.map parseWarn).flatten ++ "Error parsing attributes" ::
            (post.map parseWarn).flatten) ∧
    (∀ (pre post : List GtfFeature) (mal : GtfFeature) (glines : List String)
        (ob : String),
        mal.featType = "transcript" → mal.chrom ∈ standardChroms →
        parseAttrsDict mal.attrStr = none →
        (GenesPosition.extract_gene_positions_from_gtf (pre ++ mal :: post)
            glines ob).rows =
          (GenesPosition.extract_gene_positions_from_gtf (pre ++ post)
            glines ob).rows ∧
        (GenesPosition.extract_gene_positions_from_gtf (pre ++ mal :: post)
            glines ob).warnings =
          (pre.map parseWarn).flatten ++ "Error parsing attributes" ::
            (post.map parseWarn).flatten) ∧
    (∀ (pre post : List GtfFeature) (mal : GtfFeature) (up down : Int) (ob : String),
        mal.featType = "transcript" → parseAttrsDict mal.attrStr = none →
        (ExtractPromoters.extract_promoters_from_gtf (pre ++ mal :: post)
            up down ob).rows =
          (ExtractPromoters.extract_promoters_from_gtf (pre ++ post) up down ob).rows ∧
        (ExtractPromoters.extract_promoters_from_gtf (pre ++ mal :: post)
            up down ob).warnings = []) ∧
    (∀ (pre post : List NearestGenes.PeakRow) (bad : NearestGenes.PeakRow),
        NearestGenes.geneNameOfInfo bad.geneInfo = .error "IndexError" →
        NearestGenes.find_nearest_rows (pre ++ bad :: post) = .error "IndexError") := by
  refine ⟨?_, ?_, ?_, ?_⟩
  · intro pre post mal ob hft hchr hparse
    constructor
    · simp only [extract_all_gene_positions]
      rw [accumFirst_skip _ pre post mal (allGenesEntry_none_of_parse_none mal hparse)]
    · simp only [extract_all_gene_positions, List.map_append, List.map_cons,
        List.flatten_append, List.flatten_cons]
      have : parseWarn mal = ["Error parsing attributes"] := by
        unfold parseWarn
        rw [if_pos ⟨hft, hchr, by rw [hparse]; rfl⟩]
      rw [this]
      rfl
  · intro pre post mal glines ob hft hchr hparse
    constructor
    · simp only [GenesPosition.extract_gene_positions_from_gtf]
      rw [accumFirst_skip _ pre post mal
        (genesPositionEntry_none_of_parse_none _ mal hparse)]
    · simp only [GenesPosition.extract_gene_positions_from_gtf, List.map_append,
        List.map_cons, List.flatten_append, List.flatten_cons]
      have : parseWarn mal = ["Error parsing attributes"] := by
        unfold parseWarn
        rw [if_pos ⟨hft, hchr, by rw [hparse]; rfl⟩]
      rw [this]
      rfl
  · intro pre post mal up down ob hft hparse
    constructor
    · simp only [ExtractPromoters.extract_promoters_from_gtf]
      rw [accumFirst_skip _ pre post mal
        (promoterEntry_none_of_parse_none up down mal hparse)]
    · rfl
  · intro pre post bad hbad
    exact NearestGenes.find_nearest_rows_error _
      ⟨bad, by simp, "IndexError", hbad⟩

/-- Witness for the amended C3 at concrete inputs: `extract_all_genes.py` and
`extract_genes_position.py` on `[malformedFeature, sampleFooFeature]` each
log exactly one parse warning, `extract_promoters.py` on the same GTF logs
nothing while still emitting `Foo`'s promoter, and the nearest-genes loop
aborts on a `gene_name` item without quotes. -/
theorem c3_witness :
    (extract_all_gene_positions [malformedFeature, sampleFooFeature]
        "all_genes.bed").warnings = ["Error parsing attributes"] ∧
    (GenesPosition.extract_gene_positions_from_gtf
        [malformedFeature, sampleFooFeature] ["Foo"]
        "genes.bed").warnings = ["Error parsing attributes"] ∧
    (ExtractPromoters.extract_promoters_from_gtf [malformedFeature, sampleFooFeature]
        2000 2000 "promoters.bed").warnings = [] ∧
    NearestGenes.find_nearest_rows
        [{ chrom := "chr1", start := "5", stop := "6",
           geneInfo := "gene_name Foo", distance := "0" }] = .error "IndexError" := by
  refine ⟨?_, ?_, ?_, ?_⟩
  · have h := ((c3_malformed_attribute_handling).1 [] [sampleFooFeature]
      malformedFeature "all_genes.bed" rfl (by decide) (by decide)).2
    exact h.trans (by decide)
  · have h := ((c3_malformed_attribute_handling).2.1 [] [sampleFooFeature]
      malformedFeature ["Foo"] "genes.bed" rfl (by decide) (by decide)).2
    exact h.trans (by decide)
  · exact ((c3_malformed_attribute_handling).2.2.1 [] [sampleFooFeature]
      malformedFeature 2000 2000 "promoters.bed" rfl (by decide)).2
  · exact (c3_malformed_attribute_handling).2.2.2 []
      [] { chrom := "chr1", start := "5", stop := "6",
           geneInfo := "gene_name Foo", distance := "0" } rfl

/- ### homolog_converter.py: conversion pipeline and CLI -/

/-- The per-direction Biomart configuration of `get_dataset_config`;
`.error` models the `ValueError` on any other direction string. -/
structure BiomartConfig where
  source_dataset : String
  source_attr : String
  target_attr : String
  test_gene : String
  source_species : String
  target_species : String
deriving DecidableEq

def get_dataset_config (direction : String) : Except String BiomartConfig :=
  if direction = "m2h" then
    .ok ⟨"mmusculus_gene_ensembl", "external_gene_name",
      "hsapiens_homolog_associated_gene_name", "Actb", "mouse", "human"⟩
  else if direction = "h2m" then
    .ok ⟨"hsapiens_gene_ensembl", "external_gene_name",
      "mmusculus_homolog_associated_gene_name", "ACTB", "human", "mouse"⟩
  else .error "ValueError"

/-- The validity test of `_query_biomart` on one result cell:
`pd.notna(x) and str(x).strip()` (a `none` cell models a pandas NaN). -/
def cellValid : Option String → Bool
  | none => false
  | some s => pyTrim s ≠ ""

/-- `_query_biomart(genes, config)`: the network interaction is abstracted
into `connOk` (the result of `test_biomart_connection`) and `outcome` (the
`bm.query` result rows, or `.error` for any raised exception).  Every
`except` arm returns the empty mapping — nothing is retried.  On success the
validated rows form `all_biomart_mapping` (later rows override earlier ones)
which is then filtered to the input genes. -/
def queryBiomart (genes : List String) (connOk : Bool)
    (outcome : Except String (List (Option String × Option String))) :
    List (String × String) :=
  if !connOk then []
  else
    match outcome with
    | .error _ => []
    | .ok rows =>
      if rows = [] then []
      else
        let all := rows.foldl
          (fun m row =>
            if cellValid row.1 && cellValid row.2 then
              dictInsert m (row.1.getD "") (row.2.getD "")
            else m) []
        genes.foldl
          (fun m g =>
            match dictGet all g with
            | some t => dictInsert m g t
            | none => m) []

/-- One iteration of the naming-convention fallback loop of
`convert_gene_orthologs`: a gene not yet in `mapping` receives
`apply_naming_convention` and the source tag `naming_convention`. -/
def fbStep (direction : String)
    (st : List (String × String) × List (String × String)) (g : String) :
    List (String × String) × List (String × String) :=
  if (dictGet st.1 g).isSome then st
  else (dictInsert st.1 g (apply_naming_convention g direction),
        dictInsert st.2 g "naming_convention")

/-- The result dictionary of `convert_gene_orthologs` (the float
`success_rate` statistic is omitted from the model). -/
structure ConvResult where
  mapping : List (String × String)
  unmapped : List String
  source : List (String × String)
  statsTotal : Nat
  statsBiomart : Nat
  statsConvention : Nat
  statsUnmapped : Nat
deriving DecidableEq

/-- `convert_gene_orthologs(genes, direction, use_biomart,
fallback_to_convention)`: query Biomart if requested, tag the Biomart-mapped
genes, run the fallback loop for the unmapped ones when enabled, and collect
the genes still missing from `mapping` as `unmapped`. -/
def convert_gene_orthologs (genes : List String) (direction : String)
    (use_biomart fallback_to_convention : Bool) (connOk : Bool)
    (outcome : Except String (List (Option String × Option String))) :
    Except String ConvResult :=
  match get_dataset_config direction with
  | .error e => .error e
  | .ok _ =>
    let biomart_mapping := if use_biomart then queryBiomart genes connOk outcome else []
    let initSource := biomart_mapping.foldl (fun ms p => dictInsert ms p.1 "biomart") []
    let st :=
      if fallback_to_convention then
        genes.foldl (fbStep direction) (biomart_mapping, initSource)
      else (biomart_mapping, initSource)
    let unmapped := genes.filter (fun g => (dictGet st.1 g).isNone)
    .ok { mapping := st.1
          unmapped := unmapped
          source := st.2
          statsTotal := genes.length
          statsBiomart := biomart_mapping.length
          statsConvention := (st.2.filter (fun p => p.2 == "naming_convention")).length
          statsUnmapped := unmapped.length }

/-- `read_genes_from_file(filepath)`: the stripped non-empty lines, or
`sys.exit(1)` (modelled as `.error 1`) when the file is missing. -/
def read_genes_from_file (contents : Option (List String)) : Except Nat (List String) :=
  match contents with
  | none => .error 1
  | some ls => .ok ((ls.map pyTrim).filter (· ≠ ""))

/-- The gene-source resolution of `main`: `-g` genes verbatim, `-f` through
`read_genes_from_file` (the CLI makes the two options mutually exclusive). -/
def mainGenes (input : Sum (List String) (Option (List String))) :
    Except Nat (List String) :=
  match input with
  | .inl gs => .ok gs
  | .inr contents => read_genes_from_file contents

/-- The exit code of `main`: 1 on a missing input file, an empty gene list, a
conversion exception or a failed output write; otherwise
`sys.exit(0 if unmapped_count == 0 else 1)`. -/
def mainExitCode (input : Sum (List String) (Option (List String)))
    (direction : String) (use_biomart fallback : Bool) (connOk : Bool)
    (outcome : Except String (List (Option String × Option String)))
    (writeOk : Bool) : Nat :=
  match mainGenes input with
  | .error c => c
  | .ok genes =>
    if genes = [] then 1
    else
      match convert_gene_orthologs genes direction use_biomart fallback connOk outcome with
      | .error _ => 1
      | .ok result =>
        if !writeOk then 1
        else if result.statsUnmapped = 0 then 0 else 1

theorem convert_ok_fields (genes : List String) (direction : String)
    (ub fb connOk : Bool) (outcome : Except String (List (Option String × Option String)))
    (res : ConvResult)
    (h : convert_gene_orthologs genes direction ub fb connOk outcome = .ok res) :
    res.unmapped = genes.filter (fun g => (dictGet res.mapping g).isNone) ∧
      res.statsUnmapped = res.unmapped.length := by
  unfold convert_gene_orthologs at h
  cases hconf : get_dataset_config direction with
  | error e => rw [hconf] at h; exact absurd h (by simp)
  | ok cfg =>
    rw [hconf] at h
    dsimp only at h
    cases h
    exact ⟨rfl, rfl⟩

/-- **C2.** For the homolog converter's `main`: a missing input file exits
with code 1; and for every run that reaches the end of conversion (genes
were read, the list is non-empty, the conversion returned and the output
write succeeded), the exit code is 0 exactly when every input gene is in the
result mapping — any unmapped gene forces exit code 1. -/
theorem c2_exit_codes (input : Sum (List String) (Option (List String)))
    (direction : String) (ub fb connOk writeOk : Bool)
    (outcome : Except String (List (Option String × Option String))) :
    mainExitCode (.inr none) direction ub fb connOk outcome writeOk = 1 ∧
    (∀ (genes : List String) (res : ConvResult),
      mainGenes input = .ok genes → genes ≠ [] →
      convert_gene_orthologs genes direction ub fb connOk outcome = .ok res →
      writeOk = true →
      (mainExitCode input direction ub fb connOk outcome writeOk = 0 ↔
        ∀ g ∈ genes, (dictGet res.mapping g).isSome)) := by
  constructor
  · rfl
  · intro genes res hgenes hne hconv hw
    subst hw
    unfold mainExitCode
    rw [hgenes]
    dsimp only
    rw [if_neg hne, hconv]
    dsimp only
    obtain ⟨hunm, hcount⟩ := convert_ok_fields genes direction ub fb connOk outcome res hconv
    rw [hcount, hunm]
    constructor
    · intro h0 g hg
      by_cases hs : (dictGet res.mapping g).isSome
      · exact hs
      · exfalso
        have hmem : g ∈ genes.filter (fun g => (dictGet res.mapping g).isNone) := by
          rw [List.mem_filter]
          exact ⟨hg, by simpa [Option.isNone_iff_eq_none,
            Option.not_isSome_iff_eq_none] using hs⟩
        have : (genes.filter (fun g => (dictGet res.mapping g).isNone)).length ≠ 0 := by
          intro hlen
          rw [List.length_eq_zero] at hlen
          rw [hlen] at hmem
          simp at hmem
        split at h0
        · omega
        · omega
    · intro hall
      have hnil : genes.filter (fun g => (dictGet res.mapping g).isNone) = [] := by
        rw [List.filter_eq_nil_iff]
        intro g hg
        have := hall g hg
        simp [Option.isNone_iff_eq_none, Option.isSome_iff_exists] at this ⊢
        obtain ⟨t, ht⟩ := this
        simp [ht]
      rw [hnil]
      rfl

/-- Witness for C2: with `-g Actb -d m2h --no-biomart`, the single gene is
convention-mapped, nothing is unmapped, and `main` exits 0. -/
theorem c2_witness :
    mainExitCode (.inl ["Actb"]) "m2h" false true true (.ok []) true = 0 := by
  have hconv : convert_gene_orthologs ["Actb"] "m2h" false true true (.ok []) =
      .ok { mapping := [("Actb", "ACTB")], unmapped := [],
            source := [("Actb", "naming_convention")],
            statsTotal := 1, statsBiomart := 0, statsConvention := 1,
            statsUnmapped := 0 } := by rfl
  exact ((c2_exit_codes (.inl ["Actb"]) "m2h" false true true true (.ok [])).2
    ["Actb"] _ rfl (by decide) hconv rfl).mpr (by decide)

theorem fbStep_mono (d : String) (st : List (String × String) × List (String × String))
    (x g : String) (h : (dictGet st.1 g).isSome) :
    (dictGet (fbStep d st x).1 g).isSome := by
  unfold fbStep
  by_cases hx : (dictGet st.1 x).isSome
  · rw [if_pos hx]; exact h
  · rw [if_neg hx]
    by_cases hg : g = x
    · subst hg; rw [dictGet_insert_self]; rfl
    · rw [dictGet_insert_ne _ _ _ _ hg]; exact h

theorem fbFold_mono (d : String) (genes : List String) :
    ∀ (st : List (String × String) × List (String × String)) (g : String),
    (dictGet st.1 g).isSome → (dictGet (genes.foldl (fbStep d) st).1 g).isSome := by
  induction genes with
  | nil => intro st g h; exact h
  | cons x xs ih =>
    intro st g h
    exact ih _ g (fbStep_mono d st x g h)

theorem fbFold_mem_isSome (d : String) (genes : List String) :
    ∀ (st : List (String × String) × List (String × String)) (g : String),
    g ∈ genes → (dictGet (genes.foldl (fbStep d) st).1 g).isSome := by
  induction genes with
  | nil => intro st g h; simp at h
  | cons x xs ih =>
    intro st g h
    rcases List.mem_cons.mp h with rfl | h
    · refine fbFold_mono d xs _ g ?_
      unfold fbStep
      by_cases hx : (dictGet st.1 g).isSome
      · rw [if_pos hx]; exact hx
      · rw [if_neg hx]; rw [dictGet_insert_self]; rfl
    · exact ih _ g h

/-- The invariant of the fallback loop: every gene already present in the
mapping carries the naming-convention value and source tag. -/
def FbInv (d : String) (st : List (String × String) × List (String × String)) : Prop :=
  ∀ g, (dictGet st.1 g).isSome →
    dictGet st.1 g = some (apply_naming_convention g d) ∧
      dictGet st.2 g = some "naming_convention"

theorem fbStep_inv (d : String) (st : List (String × String) × List (String × String))
    (x : String) (h : FbInv d st) : FbInv d (fbStep d st x) := by
  intro g hg
  unfold fbStep at hg ⊢
  by_cases hx : (dictGet st.1 x).isSome
  · rw [if_pos hx] at hg ⊢
    exact h g hg
  · rw [if_neg hx] at hg ⊢
    by_cases hgx : g = x
    · subst hgx
      constructor
      · rw [dictGet_insert_self]
      · rw [dictGet_insert_self]
    · rw [dictGet_insert_ne _ _ _ _ hgx] at hg ⊢
      rw [dictGet_insert_ne _ _ _ _ hgx]
      exact h g hg

theorem fbFold_inv (d : String) (genes : List String) :
    ∀ (st : List (String × String) × List (String × String)),
    FbInv d st → FbInv d (genes.foldl (fbStep d) st) := by
  induction genes with
  | nil => intro st h; exact h
  | cons x xs ih =>
    intro st h
    exact ih _ (fbStep_inv d st x h)

/-- With every Biomart path returning the empty mapping, `convert` reduces to
the pure fallback fold. -/
theorem convert_error_outcome (genes : List String) (direction e : String)
    (connOk : Bool) (cfg : BiomartConfig)
    (hconf : get_dataset_config direction = .ok cfg) :
    convert_gene_orthologs genes direction true true connOk (.error e) =
      .ok { mapping := (genes.foldl (fbStep direction) ([], [])).1
            unmapped := genes.filter
              (fun g => (dictGet (genes.foldl (fbStep direction) ([], [])).1 g).isNone)
            source := (genes.foldl (fbStep direction) ([], [])).2
            statsTotal := genes.length
            statsBiomart := 0
            statsConvention := ((genes.foldl (fbStep direction) ([], [])).2.filter
              (fun p => p.2 == "naming_convention")).length
            statsUnmapped := (genes.filter
              (fun g => (dictGet (genes.foldl (fbStep direction)
                ([], [])).1 g).isNone)).length } := by
  have hq : queryBiomart genes connOk (.error e) = [] := by cases connOk <;> rfl
  unfold convert_gene_orthologs
  rw [hconf]
  dsimp only
  rw [hq]
  rfl

theorem convert_no_biomart (genes : List String) (direction : String)
    (connOk : Bool) (outcome : Except String (List (Option String × Option String)))
    (cfg : BiomartConfig) (hconf : get_dataset_config direction = .ok cfg) :
    convert_gene_orthologs genes direction false true connOk outcome =
      .ok { mapping := (genes.foldl (fbStep direction) ([], [])).1
            unmapped := genes.filter
              (fun g => (dictGet (genes.foldl (fbStep direction) ([], [])).1 g).isNone)
            source := (genes.foldl (fbStep direction) ([], [])).2
            statsTotal := genes.length
            statsBiomart := 0
            statsConvention := ((genes.foldl (fbStep direction) ([], [])).2.filter
              (fun p => p.2 == "naming_convention")).length
            statsUnmapped := (genes.filter
              (fun g => (dictGet (genes.foldl (fbStep direction)
                ([], [])).1 g).isNone)).length } := by
  unfold convert_gene_orthologs
  rw [hconf]
  rfl

/-- **C7.** When the Biomart query raises (any exception text `e`),
`convert_gene_orthologs` does not abort and does not retry: the result is
identical for every exception and identical to a run with `use_biomart`
disabled, the Biomart-mapped count is 0 (no gene has a remote mapping), and
with the fallback enabled every input gene is mapped by
`apply_naming_convention` with source `naming_convention`. -/
theorem c7_biomart_exception_fallback (genes : List String) (direction e : String)
    (connOk : Bool) (hdir : direction = "m2h" ∨ direction = "h2m") :
    ∃ res, convert_gene_orthologs genes direction true true connOk (.error e) = .ok res ∧
      res.statsBiomart = 0 ∧
      (∀ g ∈ genes,
        dictGet res.mapping g = some (apply_naming_convention g direction) ∧
        dictGet res.source g = some "naming_convention") ∧
      (∀ e', convert_gene_orthologs genes direction true true connOk (.error e') =
        convert_gene_orthologs genes direction true true connOk (.error e)) ∧
      convert_gene_orthologs genes direction true true connOk (.error e) =
        convert_gene_orthologs genes direction false true connOk (.error e) := by
  obtain ⟨cfg, hconf⟩ : ∃ cfg, get_dataset_config direction = .ok cfg := by
    rcases hdir with h | h <;> subst h <;> exact ⟨_, rfl⟩
  refine ⟨_, convert_error_outcome genes direction e connOk cfg hconf, rfl, ?_, ?_, ?_⟩
  · intro g hg
    have hsome := fbFold_mem_isSome direction genes ([], []) g hg
    have hinv : FbInv direction (genes.foldl (fbStep direction) ([], [])) := by
      refine fbFold_inv direction genes ([], []) ?_
      intro g hg
      simp [dictGet] at hg
    exact hinv g hsome
  · intro e'
    rw [convert_error_outcome genes direction e' connOk cfg hconf,
      convert_error_outcome genes direction e connOk cfg hconf]
  · rw [convert_error_outcome genes direction e connOk cfg hconf,
      convert_no_biomart genes direction connOk (.error e) cfg hconf]

/-- Witness for C7 at `genes = ["Tpx2"]`, `direction = "m2h"`, exception
`"boom"`: the run equals the biomart-free run and maps `Tpx2 ↦ TPX2`. -/
theorem c7_witness :
    convert_gene_orthologs ["Tpx2"] "m2h" true true true (.error "boom") =
      convert_gene_orthologs ["Tpx2"] "m2h" false true true (.error "boom") ∧
    (convert_gene_orthologs ["Tpx2"] "m2h" true true true (.error "boom")).map
      (fun res => dictGet res.mapping "Tpx2") = .ok (some "TPX2") := by
  obtain ⟨res, h1, h2, h3, h4, h5⟩ :=
    c7_biomart_exception_fallback ["Tpx2"] "m2h" "boom" true (Or.inl rfl)
  refine ⟨h5, ?_⟩
  rw [h1]
  show Except.ok (dictGet res.mapping "Tpx2") = .ok (some "TPX2")
  rw [(h3 "Tpx2" (by simp)).1]
  have : apply_naming_convention "Tpx2" "m2h" = "TPX2" := by decide
  rw [this]

/- ### C6: recovery of `gene_name` from well-formed attribute strings -/

theorem splitOnChar_ne_nil (c : Char) (l : List Char) : splitOnChar c l ≠ [] := by
  cases l with
  | nil => simp [splitOnChar]
  | cons x xs =>
    unfold splitOnChar
    split
    · simp
    · split <;> simp

theorem splitOnChar_append (c : Char) (l1 l2 : List Char) (h : c ∉ l1) :
    splitOnChar c (l1 ++ c :: l2) = l1 :: splitOnChar c l2 := by
  induction l1 with
  | nil => simp [splitOnChar]
  | cons x xs ih =>
    have hx : x ≠ c := fun e => h (by simp [e])
    have hxs : c ∉ xs := fun e => h (by simp [e])
    simp only [List.cons_append]
    conv_lhs => unfold splitOnChar
    rw [if_neg hx, ih hxs]

theorem splitOnChar_no_sep (c : Char) (l : List Char) (h : c ∉ l) :
    splitOnChar c l = [l] := by
  induction l with
  | nil => rfl
  | cons x xs ih =>
    have hx : x ≠ c := fun e => h (by simp [e])
    have hxs : c ∉ xs := fun e => h (by simp [e])
    unfold splitOnChar
    rw [if_neg hx, ih hxs]

theorem joinWithChar_cons (c : Char) (x : List Char) (S : List (List Char))
    (h : S ≠ []) : joinWithChar c (x :: S) = x ++ c :: joinWithChar c S := by
  cases S with
  | nil => exact absurd rfl h
  | cons y t => rfl

theorem joinWithChar_splitOnChar (c : Char) (l : List Char) :
    joinWithChar c (splitOnChar c l) = l := by
  induction l with
  | nil => rfl
  | cons x xs ih =>
    unfold splitOnChar
    by_cases hx : x = c
    · rw [if_pos hx, joinWithChar_cons c [] _ (splitOnChar_ne_nil c xs), ih, hx]
      rfl
    · rw [if_neg hx]
      cases hs : splitOnChar c xs with
      | nil => exact absurd hs (splitOnChar_ne_nil c xs)
      | cons hd t =>
        rw [hs] at ih
        cases t with
        | nil =>
          show x :: joinWithChar c [hd] = x :: xs
          exact congrArg (fun l => x :: l) ih
        | cons t1 t2 =>
          show x :: joinWithChar c (hd :: t1 :: t2) = x :: xs
          exact congrArg (fun l => x :: l) ih

theorem dropWhile_eq_self_of_head {p : Char → Bool} (l : List Char)
    (h : ∀ c, l.head? = some c → p c = false) : l.dropWhile p = l := by
  cases l with
  | nil => rfl
  | cons x xs => simp [List.dropWhile_cons, h x rfl]

theorem trimList_eq_self (l : List Char)
    (hh : ∀ c, l.head? = some c → pySpace c = false)
    (hl : ∀ c, l.getLast? = some c → pySpace c = false) : trimList l = l := by
  unfold trimList
  rw [dropWhile_eq_self_of_head l hh]
  rw [dropWhile_eq_self_of_head l.reverse
    (fun c hc => hl c (by rwa [List.head?_reverse] at hc))]
  exact List.reverse_reverse l

theorem trimList_cons_space (l : List Char) : trimList (' ' :: l) = trimList l := by
  unfold trimList
  rw [List.dropWhile_cons, if_pos (show pySpace ' ' = true from rfl)]

theorem mem_of_mem_trimList (c : Char) (l : List Char) (h : c ∈ trimList l) :
    c ∈ l := by
  unfold trimList at h
  rw [List.mem_reverse] at h
  have h2 := (List.dropWhile_sublist pySpace).subset h
  rw [List.mem_reverse] at h2
  exact (List.dropWhile_sublist pySpace).subset h2

/-- The canonical rendering `k "v"` of one attribute pair. -/
def itemOf (p : String × String) : List Char :=
  p.1.data ++ (' ' :: '"' :: (p.2.data ++ ['"']))

/-- Join of rendered items with the `; ` separator of GTF attribute columns. -/
def renderItems : List (List Char) → List Char
  | [] => []
  | [x] => x
  | x :: rest => x ++ ';' :: ' ' :: renderItems rest

/-- A canonical GTF attribute string `k1 "v1"; k2 "v2"; ...`. -/
def renderAttrs (pairs : List (String × String)) : String :=
  ⟨renderItems (pairs.map itemOf)⟩

/-- Well-formedness of one rendered pair: a non-empty key without whitespace,
semicolons or quotes, and a value without semicolons or quotes. -/
def wfPair (p : String × String) : Prop :=
  p.1.data ≠ [] ∧ (∀ c ∈ p.1.data, pySpace c = false) ∧
  ';' ∉ p.1.data ∧ '"' ∉ p.1.data ∧ ';' ∉ p.2.data ∧ '"' ∉ p.2.data

/-- Well-formedness of an attribute list: pairwise distinct keys, each pair
well formed, and no key other than `gene_name` itself has `gene_name` as a
prefix. -/
def wfAttrs (pairs : List (String × String)) : Prop :=
  (pairs.map (·.1)).Nodup ∧ (∀ p ∈ pairs, wfPair p) ∧
  (∀ p ∈ pairs, "gene_name".data.isPrefixOf p.1.data = true → p.1 = "gene_name")

theorem itemOf_getLast (p : String × String) :
    (itemOf p).getLast? = some '"' := by
  unfold itemOf
  rw [show p.1.data ++ (' ' :: '"' :: (p.2.data ++ ['"'])) =
    (p.1.data ++ (' ' :: '"' :: p.2.data)) ++ ['"'] by simp]
  rw [List.getLast?_append_of_ne_nil _ (by simp)]
  rfl

theorem trimList_itemOf (p : String × String) (hp : wfPair p) :
    trimList (itemOf p) = itemOf p := by
  obtain ⟨hne, hns, _, _, _, _⟩ := hp
  refine trimList_eq_self _ ?_ ?_
  · intro c hc
    cases hk : p.1.data with
    | nil => exact absurd hk hne
    | cons a as =>
      unfold itemOf at hc
      rw [hk] at hc
      simp only [List.cons_append, List.head?_cons, Option.some.injEq] at hc
      rw [← hc]
      exact hns a (by rw [hk]; simp)
  · intro c hc
    rw [itemOf_getLast p] at hc
    simp only [Option.some.injEq] at hc
    subst hc
    rfl

theorem dropWhile_eq_self_of_all {p : Char → Bool} (l : List Char)
    (h : ∀ c ∈ l, p c = false) : l.dropWhile p = l := by
  cases l with
  | nil => rfl
  | cons x xs => simp [List.dropWhile_cons, h x (by simp)]

theorem stripQuotes_wrap (v : List Char) (hv : '"' ∉ v) :
    stripQuotesList ('"' :: (v ++ ['"'])) = v := by
  cases v with
  | nil => rfl
  | cons a as =>
    have ha : a ≠ '"' := fun e => hv (by simp [e])
    unfold stripQuotesList
    have h1 : List.dropWhile (· = '"') ('"' :: ((a :: as) ++ ['"'])) =
        (a :: as) ++ ['"'] := by
      rw [List.dropWhile_cons, if_pos (by decide)]
      show List.dropWhile (· = '"') (a :: (as ++ ['"'])) = (a :: as) ++ ['"']
      rw [List.dropWhile_cons, if_neg (by simp [ha])]
      rfl
    rw [h1]
    have h2 : List.dropWhile (· = '"') ((a :: as) ++ ['"']).reverse = (a :: as).reverse := by
      rw [List.reverse_append, List.reverse_singleton]
      show List.dropWhile (· = '"') ('"' :: (a :: as).reverse) = (a :: as).reverse
      rw [List.dropWhile_cons, if_pos (by decide)]
      refine dropWhile_eq_self_of_all _ (fun c hc => ?_)
      rw [List.mem_reverse] at hc
      simp only [decide_eq_false_iff_not]
      exact fun e => hv (e ▸ hc)
    rw [h2, List.reverse_reverse]

theorem key_no_space (p : String × String) (hns : ∀ c ∈ p.1.data, pySpace c = false) :
    ' ' ∉ p.1.data :=
  fun h => absurd (hns ' ' h) (by decide)

theorem itemOf_ne_nil (p : String × String) (hne : p.1.data ≠ []) : itemOf p ≠ [] := by
  unfold itemOf
  cases hk : p.1.data with
  | nil => exact absurd hk hne
  | cons a as => simp

theorem pySplit1Space_itemOf (p : String × String) (hsp : ' ' ∉ p.1.data) :
    pySplit1Space (itemOf p) = [p.1.data, '"' :: (p.2.data ++ ['"'])] := by
  unfold pySplit1Space itemOf
  rw [splitOnChar_append ' ' p.1.data ('"' :: (p.2.data ++ ['"'])) hsp]
  cases hs : splitOnChar ' ' ('"' :: (p.2.data ++ ['"'])) with
  | nil => exact absurd hs (splitOnChar_ne_nil _ _)
  | cons s t =>
    show [p.1.data, joinWithChar ' ' (s :: t)] = [p.1.data, '"' :: (p.2.data ++ ['"'])]
    rw [← hs, joinWithChar_splitOnChar]

theorem parseAttrStep_itemOf (attrs : List (String × String)) (p : String × String)
    (hp : wfPair p) : BedSplit.parseAttrStep attrs (itemOf p) = dictInsert attrs p.1 p.2 := by
  obtain ⟨hne, hns, _, _, _, hvq⟩ := hp
  have hsp : ' ' ∉ p.1.data := key_no_space p hns
  unfold BedSplit.parseAttrStep
  rw [trimList_itemOf p ⟨hne, hns, by assumption, by assumption, by assumption, hvq⟩]
  rw [if_neg (itemOf_ne_nil p hne)]
  rw [pySplit1Space_itemOf p hsp]
  show dictInsert attrs ⟨p.1.data⟩ ⟨stripQuotesList ('"' :: (p.2.data ++ ['"']))⟩ =
    dictInsert attrs p.1 p.2
  rw [stripQuotes_wrap p.2.data hvq]

theorem parseAttrStep_cons_space (attrs : List (String × String)) (l : List Char) :
    BedSplit.parseAttrStep attrs (' ' :: l) = BedSplit.parseAttrStep attrs l := by
  unfold BedSplit.parseAttrStep
  rw [trimList_cons_space]

theorem itemOf_no_semi (q : String × String) (hq : wfPair q) : ';' ∉ itemOf q := by
  obtain ⟨_, _, hks, _, hvs, _⟩ := hq
  unfold itemOf
  intro h
  rcases List.mem_append.mp h with h | h
  · exact hks h
  · simp only [List.mem_cons, List.mem_append, List.mem_singleton] at h
    rcases h with h | h | h | h
    · exact absurd h (by decide)
    · exact absurd h (by decide)
    · exact hvs h
    · exact absurd h (by decide)

theorem renderItems_getLast (items : List (List Char))
    (h : ∀ it ∈ items, it.getLast? = some '"') (hne : items ≠ []) :
    (renderItems items).getLast? = some '"' := by
  induction items with
  | nil => exact absurd rfl hne
  | cons x rest ih =>
    cases rest with
    | nil => exact h x (by simp)
    | cons y t =>
      show (x ++ ';' :: ' ' :: renderItems (y :: t)).getLast? = some '"'
      rw [List.getLast?_append_of_ne_nil _ (by simp)]
      have hr := ih (fun it hit => h it (by simp [hit])) (by simp)
      have hRne : renderItems (y :: t) ≠ [] := by
        intro e; rw [e] at hr; simp at hr
      rw [show (';' :: ' ' :: renderItems (y :: t)) =
        [';', ' '] ++ renderItems (y :: t) from rfl]
      rw [List.getLast?_append_of_ne_nil _ hRne]
      exact hr

theorem renderItems_head_pair (pairs : List (String × String))
    (h : ∀ p ∈ pairs, wfPair p) :
    ∀ c, (renderItems (pairs.map itemOf)).head? = some c → pySpace c = false := by
  cases pairs with
  | nil => intro c hc; simp [renderItems] at hc
  | cons p rest =>
    intro c hc
    obtain ⟨hne, hns, _, _, _, _⟩ := h p (by simp)
    cases hk : p.1.data with
    | nil => exact absurd hk hne
    | cons a as =>
      have hhead : (renderItems ((p :: rest).map itemOf)).head? = some a := by
        cases rest with
        | nil =>
          show (itemOf p).head? = some a
          unfold itemOf
          rw [hk]
          rfl
        | cons q t =>
          show (itemOf p ++ ';' :: ' ' :: renderItems ((q :: t).map itemOf)).head? =
            some a
          unfold itemOf
          rw [hk]
          rfl
      rw [hhead] at hc
      rw [← Option.some.inj hc]
      exact hns a (by rw [hk]; simp)

theorem trimList_renderItems (pairs : List (String × String))
    (h : ∀ p ∈ pairs, wfPair p) :
    trimList (renderItems (pairs.map itemOf)) = renderItems (pairs.map itemOf) := by
  cases hp : pairs with
  | nil => rfl
  | cons p rest =>
    have hlast : (renderItems (pairs.map itemOf)).getLast? = some '"' := by
      refine renderItems_getLast _ (fun it hit => ?_) (by simp [hp])
      obtain ⟨q, _, rfl⟩ := List.mem_map.mp hit
      exact itemOf_getLast q
    rw [← hp]
    refine trimList_eq_self _ (renderItems_head_pair pairs h) (fun c hc => ?_)
    rw [hlast] at hc
    rw [← Option.some.inj hc]
    rfl

theorem splitOnChar_renderItems_cons (x : List Char) (rest : List (List Char))
    (h : ∀ it ∈ x :: rest, ';' ∉ it) :
    splitOnChar ';' (renderItems (x :: rest)) =
      x :: rest.map (fun it => ' ' :: it) := by
  induction rest generalizing x with
  | nil => exact splitOnChar_no_sep ';' x (h x (by simp))
  | cons y t ih =>
    show splitOnChar ';' (x ++ ';' :: ' ' :: renderItems (y :: t)) = _
    rw [splitOnChar_append ';' x _ (h x (by simp))]
    have hih := ih y (fun it hit => h it (List.mem_cons_of_mem x hit))
    simp only [List.map_cons]
    congr 1
    conv_lhs => unfold splitOnChar
    rw [if_neg (by decide)]
    rw [hih]

theorem foldl_spaced (pairs : List (String × String)) :
    ∀ acc, (∀ p ∈ pairs, wfPair p) →
    List.foldl BedSplit.parseAttrStep acc
      ((pairs.map itemOf).map (fun it => ' ' :: it)) =
      pairs.foldl (fun d p => dictInsert d p.1 p.2) acc := by
  induction pairs with
  | nil => intro acc _; rfl
  | cons q qs ih =>
    intro acc h
    simp only [List.map_cons, List.foldl_cons]
    rw [parseAttrStep_cons_space, parseAttrStep_itemOf acc q (h q (by simp))]
    exact ih _ (fun p hp => h p (by simp [hp]))

theorem parse_attributes_render (pairs : List (String × String))
    (h : ∀ p ∈ pairs, wfPair p) :
    BedSplit.parse_attributes (renderAttrs pairs) =
      pairs.foldl (fun d p => dictInsert d p.1 p.2) [] := by
  cases pairs with
  | nil => rfl
  | cons p rest =>
    have hsem : ∀ it ∈ itemOf p :: rest.map itemOf, ';' ∉ it := by
      intro it hit
      rcases List.mem_cons.mp hit with rfl | hit
      · exact itemOf_no_semi p (h p (by simp))
      · obtain ⟨q, hq, rfl⟩ := List.mem_map.mp hit
        exact itemOf_no_semi q (h q (by simp [hq]))
    unfold BedSplit.parse_attributes renderAttrs
    show (splitOnChar ';' (trimList (renderItems ((p :: rest).map itemOf)))).foldl
      BedSplit.parseAttrStep [] = _
    rw [trimList_renderItems (p :: rest) h]
    rw [show (p :: rest).map itemOf = itemOf p :: rest.map itemOf from rfl]
    rw [splitOnChar_renderItems_cons (itemOf p) (rest.map itemOf) hsem]
    rw [List.foldl_cons, parseAttrStep_itemOf [] p (h p (by simp))]
    exact foldl_spaced rest _ (fun q hq => h q (by simp [hq]))

theorem foldl_insert_preserve (pairs : List (String × String)) :
    ∀ (acc : List (String × String)) (k : String), k ∉ pairs.map (·.1) →
    dictGet (pairs.foldl (fun d p => dictInsert d p.1 p.2) acc) k = dictGet acc k := by
  induction pairs with
  | nil => intro acc k _; rfl
  | cons q qs ih =>
    intro acc k hk
    simp only [List.map_cons, List.mem_cons] at hk
    push_neg at hk
    simp only [List.foldl_cons]
    rw [ih _ k hk.2, dictGet_insert_ne _ _ _ _ hk.1]

theorem foldl_insert_lookup (pairs : List (String × String)) (k v : String) :
    ∀ acc, (pairs.map (·.1)).Nodup → (k, v) ∈ pairs →
    dictGet (pairs.foldl (fun d p => dictInsert d p.1 p.2) acc) k = some v := by
  induction pairs with
  | nil => intro acc _ hm; simp at hm
  | cons q qs ih =>
    intro acc hnd hm
    simp only [List.foldl_cons]
    rcases List.mem_cons.mp hm with rfl | hm
    · have hk : k ∉ qs.map (·.1) := by
        simp only [List.map_cons, List.nodup_cons] at hnd
        exact hnd.1
      rw [foldl_insert_preserve qs _ k hk]
      exact dictGet_insert_self _ _ _
    · exact ih _ (by simp only [List.map_cons, List.nodup_cons] at hnd; exact hnd.2) hm

theorem prefix_itemOf (q : String × String) (hq : wfPair q)
    (hpq : "gene_name".data.isPrefixOf q.1.data = true → q.1 = "gene_name") :
    "gene_name".data.isPrefixOf (itemOf q) = true ↔ q.1 = "gene_name" := by
  constructor
  · intro h
    rw [List.isPrefixOf_iff_prefix] at h
    unfold itemOf at h
    have hkey : q.1.data <+: q.1.data ++ (' ' :: '"' :: (q.2.data ++ ['"'])) :=
      List.prefix_append _ _
    rcases List.prefix_or_prefix_of_prefix h hkey with hgk | hkg
    · exact hpq ((List.isPrefixOf_iff_prefix).mpr hgk)
    · obtain ⟨s, hs⟩ := hkg
      obtain ⟨w, hw⟩ := h
      rw [← hs, List.append_assoc] at hw
      have hsw := List.append_cancel_left hw
      cases s with
      | nil =>
        have hqd : q.1.data = "gene_name".data := by simpa using hs
        apply hpq
        rw [List.isPrefixOf_iff_prefix, hqd]
      | cons c s2 =>
        have hc : c = ' ' := by
          have hh := congrArg List.head? hsw
          simpa using hh
        exfalso
        have hmem : ' ' ∈ "gene_name".data := by
          rw [← hs, hc]
          simp
        exact absurd hmem (by decide)
  · intro h
    rw [List.isPrefixOf_iff_prefix]
    unfold itemOf
    rw [show q.1 = "gene_name" from h]
    exact List.prefix_append _ _

theorem splitOnChar_quote_itemOf (q : String × String) (hkq : '"' ∉ q.1.data)
    (hvq : '"' ∉ q.2.data) :
    splitOnChar '"' (itemOf q) = [q.1.data ++ [' '], q.2.data, []] := by
  have hpre : '"' ∉ q.1.data ++ [' '] := by
    intro h
    rcases List.mem_append.mp h with h | h
    · exact hkq h
    · simp at h
  unfold itemOf
  rw [show q.1.data ++ (' ' :: '"' :: (q.2.data ++ ['"'])) =
    (q.1.data ++ [' ']) ++ '"' :: (q.2.data ++ '"' :: []) by simp]
  rw [splitOnChar_append '"' _ _ hpre]
  rw [splitOnChar_append '"' q.2.data [] hvq]
  rfl

theorem geneNameGo_step (q : String × String) (toks : List (List Char))
    (hq : wfPair q)
    (hpq : "gene_name".data.isPrefixOf q.1.data = true → q.1 = "gene_name")
    (t : List Char) (ht : trimList t = itemOf q) :
    NearestGenes.geneNameGo (t :: toks) =
      if q.1 = "gene_name" then .ok q.2 else NearestGenes.geneNameGo toks := by
  obtain ⟨hne, hns, hksemi, hkq, hvsemi, hvq⟩ := hq
  conv_lhs => unfold NearestGenes.geneNameGo
  dsimp only
  rw [ht]
  by_cases hqn : q.1 = "gene_name"
  · rw [if_pos hqn]
    have hpref : "gene_name".data.isPrefixOf (itemOf q) = true := by
      rw [List.isPrefixOf_iff_prefix]
      unfold itemOf
      rw [hqn]
      exact List.prefix_append _ _
    rw [if_pos hpref]
    rw [splitOnChar_quote_itemOf q hkq hvq]
    rfl
  · rw [if_neg hqn]
    have hpref : "gene_name".data.isPrefixOf (itemOf q) = false := by
      cases hb : "gene_name".data.isPrefixOf (itemOf q)
      · rfl
      · exact absurd ((prefix_itemOf q ⟨hne, hns, hksemi, hkq, hvsemi, hvq⟩ hpq).mp hb)
          hqn
    rw [if_neg (by simp [hpref])]

theorem geneNameGo_spaced (pairs : List (String × String)) (v : String) :
    (pairs.map (·.1)).Nodup → (∀ p ∈ pairs, wfPair p) →
    (∀ p ∈ pairs, "gene_name".data.isPrefixOf p.1.data = true → p.1 = "gene_name") →
    ("gene_name", v) ∈ pairs →
    NearestGenes.geneNameGo ((pairs.map itemOf).map (fun it => ' ' :: it)) = .ok v := by
  induction pairs with
  | nil => intro _ _ _ hm; simp at hm
  | cons q qs ih =>
    intro hnd hw hpre hm
    simp only [List.map_cons]
    rw [geneNameGo_step q _ (hw q (by simp)) (hpre q (by simp)) _
      (by rw [trimList_cons_space]; exact trimList_itemOf q (hw q (by simp)))]
    rcases List.mem_cons.mp hm with heq | hm
    · rw [if_pos (by rw [← heq]), ← heq]
    · have hq1 : q.1 ≠ "gene_name" := by
        simp only [List.map_cons, List.nodup_cons] at hnd
        intro e
        apply hnd.1
        rw [e]
        exact List.mem_map.mpr ⟨("gene_name", v), hm, rfl⟩
      rw [if_neg hq1]
      exact ih (by simp only [List.map_cons, List.nodup_cons] at hnd; exact hnd.2)
        (fun p hp => hw p (by simp [hp])) (fun p hp => hpre p (by simp [hp])) hm

theorem geneNameOfInfo_render (pairs : List (String × String)) (v : String)
    (hwf : wfAttrs pairs) (hmem : ("gene_name", v) ∈ pairs) :
    NearestGenes.geneNameOfInfo (renderAttrs pairs) = .ok v := by
  obtain ⟨hnd, hw, hpre⟩ := hwf
  cases pairs with
  | nil => simp at hmem
  | cons p rest =>
    have hsem : ∀ it ∈ itemOf p :: rest.map itemOf, ';' ∉ it := by
      intro it hit
      rcases List.mem_cons.mp hit with rfl | hit
      · exact itemOf_no_semi p (hw p (by simp))
      · obtain ⟨q, hq, rfl⟩ := List.mem_map.mp hit
        exact itemOf_no_semi q (hw q (by simp [hq]))
    have hner : renderItems ((p :: rest).map itemOf) ≠ [] := by
      obtain ⟨hne0, _, _, _, _, _⟩ := hw p (by simp)
      have hitem := itemOf_ne_nil p hne0
      cases rest with
      | nil => simpa [renderItems] using hitem
      | cons y t =>
        show itemOf p ++ ';' :: ' ' :: renderItems ((y :: t).map itemOf) ≠ []
        simp
    unfold NearestGenes.geneNameOfInfo renderAttrs
    rw [if_neg (show (⟨renderItems ((p :: rest).map itemOf)⟩ : String) ≠ "" from
      fun e => hner (congrArg String.data e))]
    show NearestGenes.geneNameGo
      (splitOnChar ';' (renderItems (itemOf p :: rest.map itemOf))) = .ok v
    rw [splitOnChar_renderItems_cons _ _ hsem]
    rw [geneNameGo_step p _ (hw p (by simp)) (hpre p (by simp)) _
      (trimList_itemOf p (hw p (by simp)))]
    rcases List.mem_cons.mp hmem with heq | hm
    · rw [if_pos (by rw [← heq]), ← heq]
    · have hp1 : p.1 ≠ "gene_name" := by
        simp only [List.map_cons, List.nodup_cons] at hnd
        intro e
        apply hnd.1
        rw [e]
        exact List.mem_map.mpr ⟨("gene_name", v), hm, rfl⟩
      rw [if_neg hp1]
      exact geneNameGo_spaced rest v
        (by simp only [List.map_cons, List.nodup_cons] at hnd; exact hnd.2)
        (fun q hq => hw q (by simp [hq])) (fun q hq => hpre q (by simp [hq])) hm

theorem geneNameGo_na (toks : List (List Char))
    (h : ∀ it ∈ toks, "gene_name".data.isPrefixOf (trimList it) = false) :
    NearestGenes.geneNameGo toks = .ok "NA" := by
  induction toks with
  | nil => rfl
  | cons it rest ih =>
    unfold NearestGenes.geneNameGo
    dsimp only
    rw [if_neg (by simp [h it (by simp)])]
    exact ih (fun x hx => h x (by simp [hx]))

theorem geneNameOfInfo_na (info : String)
    (h : ∀ it ∈ splitOnChar ';' info.data,
      "gene_name".data.isPrefixOf (trimList it) = false) :
    NearestGenes.geneNameOfInfo info = .ok "NA" := by
  unfold NearestGenes.geneNameOfInfo
  split
  · rfl
  · exact geneNameGo_na _ h

theorem geneNameOfInfo_no_quote_error (item : String)
    (hpre : "gene_name".data.isPrefixOf (trimList item.data) = true)
    (hq : '"' ∉ item.data) (hsemi : ';' ∉ item.data) :
    NearestGenes.geneNameOfInfo item = .error "IndexError" := by
  have hne : item ≠ "" := by
    intro e
    rw [e] at hpre
    exact absurd hpre (by decide)
  unfold NearestGenes.geneNameOfInfo
  rw [if_neg hne]
  rw [splitOnChar_no_sep ';' item.data hsemi]
  unfold NearestGenes.geneNameGo
  dsimp only
  rw [if_pos hpre]
  rw [splitOnChar_no_sep '"' _ (fun hmem => hq (mem_of_mem_trimList _ _ hmem))]
  rfl

/-- **C6 (counterexample).** On the attribute string `gene_name Foo` — an
attribute item that starts with `gene_name` but has no quoted value — the
nearest-genes parser raises an uncaught `IndexError`
(`item.split('"')[1]` on a splitless item) instead of returning a sentinel. -/
theorem c6_counterexample :
    NearestGenes.geneNameOfInfo "gene_name Foo" = .error "IndexError" := rfl

/-- **C6 (amended).** For every well-formed attribute string (a rendered
key–value list with distinct keys, no quotes/semicolons/whitespace inside
keys and no quotes/semicolons inside values, where only the key `gene_name`
itself starts with `gene_name`) containing `gene_name ↦ v`, both parsers
recover `v`.  `bed_split_proximal_distal.py` degrades to the sentinel `"."`
on any attribute string whose parse lacks a `gene_name` key and never fails;
`extract_nearest_genes_of_peaks.py` degrades to `"NA"` when no item starts
with `gene_name`, but fails with an `IndexError` (rather than returning a
sentinel) on an item that starts with `gene_name` and contains no double
quote. -/
theorem c6_gene_name_parsing :
    (∀ (pairs : List (String × String)) (v : String),
        wfAttrs pairs → ("gene_name", v) ∈ pairs →
        BedSplit.bedSplitGeneName (renderAttrs pairs) = v ∧
        NearestGenes.geneNameOfInfo (renderAttrs pairs) = .ok v) ∧
    (∀ s : String, dictGet (BedSplit.parse_attributes s) "gene_name" = none →
        BedSplit.bedSplitGeneName s = ".") ∧
    (∀ info : String,
        (∀ it ∈ splitOnChar ';' info.data,
          "gene_name".data.isPrefixOf (trimList it) = false) →
        NearestGenes.geneNameOfInfo info = .ok "NA") ∧
    (∀ item : String,
        "gene_name".data.isPrefixOf (trimList item.data) = true →
        '"' ∉ item.data → ';' ∉ item.data →
        NearestGenes.geneNameOfInfo item = .error "IndexError") := by
  refine ⟨?_, ?_, geneNameOfInfo_na, geneNameOfInfo_no_quote_error⟩
  · intro pairs v hwf hmem
    refine ⟨?_, geneNameOfInfo_render pairs v hwf hmem⟩
    unfold BedSplit.bedSplitGeneName
    rw [parse_attributes_render pairs hwf.2.1]
    rw [foldl_insert_lookup pairs "gene_name" v [] hwf.1 hmem]
    rfl
  · intro s h
    unfold BedSplit.bedSplitGeneName
    rw [h]
    rfl

/-- Witness for the amended C6: on the canonical attribute string
`gene_id "G1"; gene_name "Foo"` both parsers return `Foo`; on
`gene_id "G1"` (no `gene_name` key) they return their sentinels. -/
theorem c6_witness :
    BedSplit.bedSplitGeneName
        (renderAttrs [("gene_id", "G1"), ("gene_name", "Foo")]) = "Foo" ∧
    NearestGenes.geneNameOfInfo
        (renderAttrs [("gene_id", "G1"), ("gene_name", "Foo")]) = .ok "Foo" ∧
    BedSplit.bedSplitGeneName "gene_id \"G1\"" = "." ∧
    NearestGenes.geneNameOfInfo "gene_id \"G1\"" = .ok "NA" := by
  obtain ⟨h1, h2⟩ := c6_gene_name_parsing.1 [("gene_id", "G1"), ("gene_name", "Foo")]
    "Foo" (by unfold wfAttrs wfPair; decide) (by simp)
  refine ⟨h1, h2, ?_, ?_⟩
  · exact c6_gene_name_parsing.2.1 "gene_id \"G1\"" (by decide)
  · exact c6_gene_name_parsing.2.2.1 "gene_id \"G1\"" (by decide)
